import Mathlib

/-!
Verification of the Relevance & Recency-Weighted Retrieval Engine of the
ai-cover-letter repository, shallowly embedded from
`src/app/services/rag_service.py` and `src/app/services/filename_parser.py`.

Conventions of the embedding:
* Python strings are `List Char`; Python floats are exact rationals `ℚ`
  (reals `ℝ` only where a square root appears, in `cosine_similarity`).
* `datetime` values are midnight dates (`Date`); `datetime.now()` is an
  explicit `now : Date` parameter; `(a - b).days` is the difference of
  proleptic-Gregorian ordinals, as in CPython.
* Python exceptions are `Except PyError`; the process-wide embedding model is
  `Option (List Char → Option (List ℚ))` (`none` = model failed to load, and
  an `encode` returning `none` = the model raised).
* The md5 content hash used as the cache key is modelled by the text itself
  (an injective content key).
-/

set_option maxRecDepth 10000

/-- Proleptic-Gregorian leap-year test, as in CPython's `datetime`. -/
def isLeapYear (y : ℕ) : Bool := y % 4 == 0 && (y % 100 != 0 || y % 400 == 0)

/-- Number of days of month `m` of year `y` (CPython `calendar` rules). -/
def daysInMonth (y m : ℕ) : ℕ :=
  if m = 2 then (if isLeapYear y then 29 else 28)
  else if m = 4 ∨ m = 6 ∨ m = 9 ∨ m = 11 then 30
  else 31

/-- A calendar date, standing for a CPython `datetime` at midnight. -/
structure Date where
  year : ℕ
  month : ℕ
  day : ℕ
deriving DecidableEq

/-- The validity check CPython's `datetime(y, m, d)` constructor performs;
an invalid triple raises `ValueError` (here: `mkDatetime` returns `none`). -/
def validDate (y m d : ℕ) : Bool :=
  1 ≤ y && y ≤ 9999 && 1 ≤ m && m ≤ 12 && 1 ≤ d && d ≤ daysInMonth y m

/-- `datetime(y, m, d)` with its `ValueError` modelled as `none`. -/
def mkDatetime (y m d : ℕ) : Option Date :=
  if validDate y m d then some ⟨y, m, d⟩ else none

/-- Days in the months of year `y` strictly before month `m`. -/
def daysBeforeMonth (y m : ℕ) : ℕ :=
  (List.range m).foldl (fun acc k => acc + if 1 ≤ k then daysInMonth y k else 0) 0

/-- Proleptic-Gregorian ordinal of a date (CPython `date.toordinal`). -/
def Date.toOrdinal (d : Date) : ℕ :=
  let n := d.year - 1
  365 * n + n / 4 - n / 100 + n / 400 + daysBeforeMonth d.year d.month + d.day

/-- `(a - b).days` for two midnight datetimes. -/
def daysBetween (a b : Date) : ℤ := (a.toOrdinal : ℤ) - (b.toOrdinal : ℤ)

/-- Decimal value of a digit string (`int(s)` for an all-digit `s`). -/
def natOfDigits (cs : List Char) : ℕ :=
  cs.foldl (fun a c => 10 * a + (c.toNat - 48)) 0

/-- Python `str.split(sep)` for a single-character separator: keeps empty
pieces, always returns at least one piece. -/
def splitOnChar (sep : Char) : List Char → List (List Char)
  | [] => [[]]
  | x :: xs =>
    match splitOnChar sep xs with
    | [] => [[x]]
    | h :: t => if x = sep then [] :: h :: t else (x :: h) :: t

/-- Python `str.strip()` (whitespace trimmed from both ends). -/
def pyStrip (cs : List Char) : List Char :=
  ((cs.dropWhile (·.isWhitespace)).reverse.dropWhile (·.isWhitespace)).reverse

/-- Python `str.split()` with no argument: whitespace-separated words,
empty pieces dropped. -/
def pyWords (cs : List Char) : List (List Char) :=
  let p := cs.foldr
    (fun c acc =>
      if c.isWhitespace then ([], if acc.1.isEmpty then acc.2 else acc.1 :: acc.2)
      else (c :: acc.1, acc.2))
    ([], [])
  if p.1.isEmpty then p.2 else p.1 :: p.2

mutual

/-- Splitting on nonempty runs of characters satisfying `p`
(Python `re.split` with a `[...]+` pattern), part 1: consuming a segment. -/
def splitRunsSeg (p : Char → Bool) (cur : List Char) : List Char → List (List Char)
  | [] => [cur.reverse]
  | c :: cs =>
    if p c then cur.reverse :: splitRunsSkip p cs else splitRunsSeg p (c :: cur) cs

/-- Splitting on runs, part 2: consuming a delimiter run. -/
def splitRunsSkip (p : Char → Bool) : List Char → List (List Char)
  | [] => [[]]
  | c :: cs => if p c then splitRunsSkip p cs else splitRunsSeg p [c] cs

end

/-- `re.split(r'[...]+', s)` where the class is given by `p`. -/
def splitRuns (p : Char → Bool) (cs : List Char) : List (List Char) :=
  splitRunsSeg p [] cs

/-- Python `os.path.splitext(filename)[0]` for a plain filename: the extension
starts at the last dot, except that a name consisting only of leading dots
before that dot keeps its extension. -/
def splitextName (cs : List Char) : List Char :=
  let ri := cs.reverse.findIdx (· == '.')
  if ri = cs.length then cs
  else
    let i := cs.length - 1 - ri
    if (cs.take i).any (fun c => c != '.') then cs.take i else cs

/-- Component order of a `strptime` date format such as `%Y-%m-%d`. -/
inductive DOrder where
  | ymd
  | dmy
  | mdy
deriving DecidableEq

/-- The `%Y` component regex of CPython `_strptime`: exactly four digits. -/
def checkYearStr (s : List Char) : Bool :=
  s.length = 4 && s.all Char.isDigit

/-- The `%m` component regex of CPython `_strptime`: one or two digits with
value 1..12. -/
def checkMonthStr (s : List Char) : Bool :=
  (s.length = 1 || s.length = 2) && s.all Char.isDigit
    && 1 ≤ natOfDigits s && natOfDigits s ≤ 12

/-- The `%d` component regex of CPython `_strptime`: one or two digits with
value 1..31. -/
def checkDayStr (s : List Char) : Bool :=
  (s.length = 1 || s.length = 2) && s.all Char.isDigit
    && 1 ≤ natOfDigits s && natOfDigits s ≤ 31

/-- `datetime.strptime(s, fmt)` for the three-component date formats used by
`FilenameParser._parse_date`: the string must be exactly three
separator-joined components matching the per-component regexes, and the
triple must be a valid calendar date. -/
def strptimeTriple (sep : Char) (ord : DOrder) (s : List Char) : Option Date :=
  match splitOnChar sep s with
  | [a, b, c] =>
    match ord with
    | .ymd =>
      if checkYearStr a && checkMonthStr b && checkDayStr c then
        mkDatetime (natOfDigits a) (natOfDigits b) (natOfDigits c)
      else none
    | .dmy =>
      if checkDayStr a && checkMonthStr b && checkYearStr c then
        mkDatetime (natOfDigits c) (natOfDigits b) (natOfDigits a)
      else none
    | .mdy =>
      if checkMonthStr a && checkDayStr b && checkYearStr c then
        mkDatetime (natOfDigits c) (natOfDigits a) (natOfDigits b)
      else none
  | _ => none

/-- `FilenameParser._parse_date`: the format list
`%Y-%m-%d, %Y-%m-%d, %d-%m-%Y, %m-%d-%Y, %Y/%m/%d, %d/%m/%Y, %m/%d/%Y`
tried in order (the duplicate of the source is kept). -/
def parseDateStr (s : List Char) : Option Date :=
  strptimeTriple '-' .ymd s <|> strptimeTriple '-' .ymd s
    <|> strptimeTriple '-' .dmy s <|> strptimeTriple '-' .mdy s
    <|> strptimeTriple '/' .ymd s <|> strptimeTriple '/' .dmy s
    <|> strptimeTriple '/' .mdy s

/-- `FilenameParser.extract_date_from_filename` (the `date` field of
`parse_filename`): strip the extension, split on underscores, return no date
for fewer than two parts, else parse the first part. -/
def extract_date_from_filename (filename : List Char) : Option Date :=
  match splitOnChar '_' (splitextName filename) with
  | [] => none
  | [_] => none
  | p :: _ :: _ => parseDateStr p

/-- Is this character a date separator (dash or slash) of the content date
patterns? -/
def isDateSep (c : Char) : Bool := c = '-' || c = '/'

/-- Trailing greedy `(\d{1,2})` at the end of the first content pattern:
take two digits if available, else one (nothing after it is constrained). -/
def lastGroup12 : List Char → Option ℕ
  | [] => none
  | [a] => if a.isDigit then some (natOfDigits [a]) else none
  | a :: b :: _ =>
    if a.isDigit then
      (if b.isDigit then some (natOfDigits [a, b]) else some (natOfDigits [a]))
    else none

/-- Greedy `(\d{1,2}) sep (\d{1,2})` (sep = dash or slash) with backtracking on the first group. -/
def midSepLast (rest : List Char) : Option (ℕ × ℕ) :=
  (match rest with
   | a :: b :: s :: r =>
     if a.isDigit && b.isDigit && isDateSep s then
       (lastGroup12 r).map (fun d => (natOfDigits [a, b], d))
     else none
   | _ => none)
  <|>
  (match rest with
   | a :: s :: r =>
     if a.isDigit && isDateSep s then
       (lastGroup12 r).map (fun d => (natOfDigits [a], d))
     else none
   | _ => none)

/-- Anchored match of `(\d{4}) sep (\d{1,2}) sep (\d{1,2})` at the head of the
list, returning the three groups as numbers. -/
def matchP1At (cs : List Char) : Option (ℕ × ℕ × ℕ) :=
  match cs with
  | a :: b :: c :: d :: s :: rest =>
    if a.isDigit && b.isDigit && c.isDigit && d.isDigit && isDateSep s then
      (midSepLast rest).map (fun p => (natOfDigits [a, b, c, d], p.1, p.2))
    else none
  | _ => none

/-- Exact `(\d{4})` group of the second content pattern (what follows it is
not constrained). -/
def lastGroup4 : List Char → Option ℕ
  | a :: b :: c :: d :: _ =>
    if a.isDigit && b.isDigit && c.isDigit && d.isDigit then
      some (natOfDigits [a, b, c, d])
    else none
  | _ => none

/-- Greedy `(\d{1,2}) sep (\d{4})` with backtracking on the first group. -/
def midSepYear (rest : List Char) : Option (ℕ × ℕ) :=
  (match rest with
   | a :: b :: s :: r =>
     if a.isDigit && b.isDigit && isDateSep s then
       (lastGroup4 r).map (fun y => (natOfDigits [a, b], y))
     else none
   | _ => none)
  <|>
  (match rest with
   | a :: s :: r =>
     if a.isDigit && isDateSep s then
       (lastGroup4 r).map (fun y => (natOfDigits [a], y))
     else none
   | _ => none)

/-- Anchored match of `(\d{1,2}) sep (\d{1,2}) sep (\d{4})` at the head of the
list, returning the three groups as numbers. -/
def matchP2At (cs : List Char) : Option (ℕ × ℕ × ℕ) :=
  (match cs with
   | a :: b :: s :: r =>
     if a.isDigit && b.isDigit && isDateSep s then
       (midSepYear r).map (fun p => (natOfDigits [a, b], p.1, p.2))
     else none
   | _ => none)
  <|>
  (match cs with
   | a :: s :: r =>
     if a.isDigit && isDateSep s then
       (midSepYear r).map (fun p => (natOfDigits [a], p.1, p.2))
     else none
   | _ => none)

/-- `re.search`: the anchored matcher `m` tried at each position from the
left; the first success wins. -/
def searchFirst {α : Type} (m : List Char → Option α) : List Char → Option α
  | [] => none
  | c :: cs => m (c :: cs) <|> searchFirst m cs

/-- The second-pattern leg of `RAGService._extract_date_from_content`: on a
match of `(\d{1,2}) sep (\d{1,2}) sep (\d{4})` the source tries the orderings
`datetime(parts[2], parts[1], parts[0])` then
`datetime(parts[2], parts[0], parts[1])`. -/
def extractContentP2 (content : List Char) : Option Date :=
  match searchFirst matchP2At content with
  | some (a, b, c) => mkDatetime c b a <|> mkDatetime c a b
  | none => none

/-- `RAGService._extract_date_from_content`: the first `re.search` match of
the year-first pattern is parsed directly (four-digit first group); if that
raises, or if the pattern has no match, the year-last pattern is tried.
Later matches of a pattern whose first match fails to parse are never
visited. -/
def extract_date_from_content (content : List Char) : Option Date :=
  match searchFirst matchP1At content with
  | some (y, m, d) =>
    match mkDatetime y m d with
    | some dt => some dt
    | none => extractContentP2 content
  | none => extractContentP2 content

/-- Anchored combination of both content patterns at one position, with the
orderings the spec describes. Used only by `claimedFirstParsingDate`. -/
def parseAtPosition (cs : List Char) : Option Date :=
  (match matchP1At cs with
   | some (y, m, d) => mkDatetime y m d
   | none => none)
  <|>
  (match matchP2At cs with
   | some (a, b, c) => mkDatetime c b a <|> mkDatetime c a b
   | none => none)

/-- Modelled from the spec (§4.1 level 2, and claim C7's wording), not from
the source: the first date-like substring of the content that parses to a
valid calendar date, scanning positions left to right and trying both
patterns and the plausible field orderings at each position. It is compared
against the source's `extract_date_from_content`. -/
def claimedFirstParsingDate : List Char → Option Date
  | [] => none
  | c :: cs => parseAtPosition (c :: cs) <|> claimedFirstParsingDate cs

/-- The configuration `RAGService.__init__` reads from the environment
(defaults: base 1.0, period 365, floor 0.1, weighting enabled,
cv 2.0, cover_letter 1.8, linkedin 1.2, other 0.8). -/
structure RAGConfig where
  base_weight : ℚ
  recency_period_days : ℚ
  min_weight_multiplier : ℚ
  recency_weighting_enabled : Bool
  w_cv : ℚ
  w_cover_letter : ℚ
  w_linkedin : ℚ
  w_other : ℚ

/-- The postconditions `__init__`'s validation establishes for every
configuration it accepts (invalid overrides fall back to defaults). -/
def RAGConfig.Valid (cfg : RAGConfig) : Prop :=
  0 < cfg.base_weight ∧ 0 < cfg.recency_period_days
    ∧ 0 < cfg.min_weight_multiplier ∧ cfg.min_weight_multiplier ≤ 1
    ∧ 0 < cfg.w_cv ∧ 0 < cfg.w_cover_letter ∧ 0 < cfg.w_linkedin ∧ 0 < cfg.w_other

instance (cfg : RAGConfig) : Decidable cfg.Valid := by
  unfold RAGConfig.Valid; infer_instance

/-- The default configuration of `RAGService.__init__`. -/
def defaultConfig : RAGConfig where
  base_weight := 1
  recency_period_days := 365
  min_weight_multiplier := 1 / 10
  recency_weighting_enabled := true
  w_cv := 2
  w_cover_letter := 9 / 5
  w_linkedin := 6 / 5
  w_other := 4 / 5

/-- A snapshot of a persisted `Document` row as the engine reads it. The
`manual_weight` column (alembic migration 0004) is carried along so that its
use, or non-use, by the weight calculator can be stated. -/
structure Document where
  id : ℕ
  filename : List Char
  document_type : List Char
  content : List Char
  uploaded_at : Date
  manual_weight : ℚ

/-- `self.document_type_weights.get(doc_type, self.document_type_weights['other'])`. -/
def typeWeight (cfg : RAGConfig) (t : List Char) : ℚ :=
  if t = "cv".toList then cfg.w_cv
  else if t = "cover_letter".toList then cfg.w_cover_letter
  else if t = "linkedin".toList then cfg.w_linkedin
  else if t = "other".toList then cfg.w_other
  else cfg.w_other

/-- The date-precedence shared by `calculate_document_weight` (lines 464-477)
and `_calculate_temporal_relevance` (lines 259-274): filename date first,
else first content date, else the upload timestamp. -/
def inferredDate (filename content : List Char) (fallback : Date) : Date :=
  match extract_date_from_filename filename with
  | some d => d
  | none =>
    match extract_date_from_content content with
    | some d => d
    | none => fallback

/-- `days_since_document = (datetime.now() - date).days` for the inferred
date of a document. -/
def docDays (now : Date) (doc : Document) : ℤ :=
  daysBetween now (inferredDate doc.filename doc.content doc.uploaded_at)

/-- `max(self.min_weight_multiplier, 1.0 - days_since_document / self.recency_period_days)`. -/
def recencyMultiplier (cfg : RAGConfig) (days : ℤ) : ℚ :=
  max cfg.min_weight_multiplier (1 - (days : ℚ) / cfg.recency_period_days)

/-- `RAGService.calculate_document_weight` (lines 451-484). Note that the
snapshot's `manual_weight` is not consulted. -/
def calculate_document_weight (cfg : RAGConfig) (now : Date) (doc : Document) : ℚ :=
  let type_weight := typeWeight cfg (doc.document_type.map Char.toLower)
  let recency_multiplier :=
    if cfg.recency_weighting_enabled then recencyMultiplier cfg (docDays now doc) else 1
  cfg.base_weight * type_weight * recency_multiplier

/-- `RAGService._calculate_temporal_relevance` (lines 253-286): the recency
multiplier recomputed per document (1.0 when weighting is disabled); its
internal exception handler is dead code in the pure embedding. -/
def temporal_relevance (cfg : RAGConfig) (now : Date) (doc : Document) : ℚ :=
  if cfg.recency_weighting_enabled then recencyMultiplier cfg (docDays now doc) else 1

/-- `RAGService._calculate_domain_relevance` (lines 288-301): the type weight
normalized by the hard-coded divisor 2.0 and capped at 1. -/
def domain_relevance (cfg : RAGConfig) (doc : Document) : ℚ :=
  min 1 (typeWeight cfg (doc.document_type.map Char.toLower) / 2)

/-- Length factor of `_calculate_content_quality` (lines 311-316). -/
def cqLengthScore (chunk : List Char) : ℚ :=
  if 50 ≤ (pyStrip chunk).length then 3 / 10
  else if 20 ≤ (pyStrip chunk).length then 1 / 10
  else 0

/-- Sentence-completeness factor of `_calculate_content_quality`
(lines 318-324). -/
def cqSentenceScore (chunk : List Char) : ℚ :=
  let sentences := splitRuns (fun c => c = '.' || c = '!' || c = '?') chunk
  let complete := (sentences.map pyStrip).filter (fun s => 10 < s.length)
  if 2 ≤ complete.length then 3 / 10
  else if 1 ≤ complete.length then 2 / 10
  else 0

/-- Keyword-density factor of `_calculate_content_quality` (lines 326-334). -/
def cqDensityScore (chunk query : List Char) : ℚ :=
  let queryWords := (pyWords (query.map Char.toLower)).dedup
  let chunkWords := pyWords (chunk.map Char.toLower)
  if chunkWords.isEmpty then 0
  else
    let density : ℚ :=
      ((chunkWords.filter (fun w => w ∈ queryWords)).length : ℚ) / (chunkWords.length : ℚ)
    if 1 / 20 ≤ density ∧ density ≤ 3 / 10 then 4 / 10
    else if 0 < density then 2 / 10
    else 0

/-- `RAGService._calculate_content_quality` (lines 303-340): additive length,
sentence-completeness and keyword-density heuristics capped at 1. -/
def content_quality (chunk query : List Char) : ℚ :=
  if chunk.all (·.isWhitespace) then 0
  else min 1 (cqLengthScore chunk + cqSentenceScore chunk + cqDensityScore chunk query)

/-- `RAGService._calculate_frequency_score` (lines 342-364): matches of
long (length > 2) query terms among the chunk's words, against three times
the number of distinct query terms, capped at 1. -/
def frequency_score (chunk query : List Char) : ℚ :=
  if chunk = [] ∨ query = [] then 0
  else
    let queryWords :=
      (((pyWords query).filter (fun w => 2 < w.length)).map (List.map Char.toLower)).dedup
    let chunkWords := (pyWords chunk).map (List.map Char.toLower)
    if queryWords = [] ∨ chunkWords = [] then 0
    else
      let matchCount := (chunkWords.filter (fun w => w ∈ queryWords)).length
      min 1 ((matchCount : ℚ) / ((queryWords.length : ℚ) * 3))

/-- Dot product of two equal-length rational vectors (`np.dot`). -/
def dotQ (v w : List ℚ) : ℚ := ((v.zip w).map (fun p => p.1 * p.2)).sum

/-- Sum of squares of a vector; `np.linalg.norm v` is its square root, and
`norm v == 0` iff `normSq v = 0`. -/
def normSq (v : List ℚ) : ℚ := (v.map (fun x => x * x)).sum

/-- `RAGService.cosine_similarity` (lines 366-390): 0 for empty or
length-mismatched or zero-norm vectors, else the cosine clamped to the unit
interval. -/
noncomputable def cosine_similarity (v1 v2 : List ℚ) : ℝ :=
  if v1 = [] ∨ v2 = [] ∨ v1.length ≠ v2.length then 0
  else if normSq v1 = 0 ∨ normSq v2 = 0 then 0
  else
    max 0 (min 1 ((dotQ v1 v2 : ℝ) / (Real.sqrt (normSq v1) * Real.sqrt (normSq v2))))

/-- The sub-scores and composite returned by
`RAGService._calculate_enhanced_relevance`. -/
structure RelevanceScore where
  total_score : ℝ
  semantic_score : ℝ
  temporal_score : ℝ
  domain_score : ℝ
  content_score : ℝ
  frequency_score : ℝ

/-- `RAGService._calculate_enhanced_relevance` (lines 203-251): the weighted
combination 0.40/0.25/0.20/0.10/0.05 of the five sub-signals. The
cosine-fallback exception handler is dead code in the pure embedding, where
the sub-score computations are total. -/
noncomputable def calculate_enhanced_relevance (cfg : RAGConfig) (now : Date)
    (query_embedding chunk_embedding : List ℚ) (doc : Document)
    (chunk query : List Char) : RelevanceScore :=
  let semantic : ℝ := cosine_similarity query_embedding chunk_embedding
  let temporal : ℝ := (temporal_relevance cfg now doc : ℚ)
  let domain : ℝ := (domain_relevance cfg doc : ℚ)
  let content : ℝ := (content_quality chunk query : ℚ)
  let frequency : ℝ := (frequency_score chunk query : ℚ)
  { total_score :=
      semantic * 0.40 + temporal * 0.25 + domain * 0.20 + content * 0.10 + frequency * 0.05
    semantic_score := semantic
    temporal_score := temporal
    domain_score := domain
    content_score := content
    frequency_score := frequency }

/-- Iteration body of `RAGService.extract_chunks`: the `while start < len`
loop, with a fuel argument bounding the iteration count (the caller passes
`text.length`, which suffices whenever `overlap < size`). -/
def chunksGo (text : List Char) (size overlap : ℕ) : ℕ → ℕ → List (List Char)
  | 0, _ => []
  | fuel + 1, start =>
    if start < text.length then
      (text.drop start).take size :: chunksGo text size overlap fuel (start + (size - overlap))
    else []

/-- `RAGService.extract_chunks` (lines 111-124, defaults size 500,
overlap 100). -/
def extract_chunks (text : List Char) (size overlap : ℕ) : List (List Char) :=
  if text.length ≤ size then [text] else chunksGo text size overlap text.length 0

/-- Undoing the overlap: the first chunk, then every later chunk with its
first `overlap` characters dropped, concatenated. -/
def reconstruct (overlap : ℕ) : List (List Char) → List Char
  | [] => []
  | c :: cs => c ++ (cs.map (List.drop overlap)).flatten

/-- The two exception classes of `app.exceptions` raised by the engine. -/
inductive PyError where
  | embeddingError (msg : List Char)
  | ragServiceError (msg : List Char)
deriving DecidableEq

/-- The class-level `RAGService._embedding_cache` dict: key-value pairs in
insertion order, oldest first (`next(iter(d))` is the head). -/
abbrev EmbCache := List (List Char × List ℚ)

/-- Dict lookup by content key. -/
def cacheLookup (cache : EmbCache) (text : List Char) : Option (List ℚ) :=
  (cache.find? (fun e => decide (e.1 = text))).map (fun e => e.2)

/-- `RAGService.create_embeddings` (lines 80-109): raises when the model is
unavailable or the text is empty/whitespace; returns the cached vector on a
hit; on a miss calls the embedder, evicting the oldest entry first when the
cache is full (`next(iter(...))` on an empty dict raises, which the handler
converts to an `EmbeddingError`). Returns the vector and the updated cache. -/
def create_embeddings_go (encode : List Char → Option (List ℚ)) (maxSize : ℕ)
    (text : List Char) (cache : EmbCache) : Except PyError (List ℚ × EmbCache) :=
  if text.all (·.isWhitespace) then
    .error (.embeddingError "Text cannot be empty".toList)
  else
    match cacheLookup cache text with
    | some v => .ok (v, cache)
    | none =>
      match encode text with
      | none => .error (.embeddingError "Failed to create embeddings".toList)
      | some v =>
        if maxSize ≤ cache.length then
          match cache with
          | [] => .error (.embeddingError "Failed to create embeddings".toList)
          | _ :: rest => .ok (v, rest ++ [(text, v)])
        else .ok (v, cache ++ [(text, v)])

/-- `RAGService.create_embeddings`, early return for the missing model. -/
def create_embeddings (model? : Option (List Char → Option (List ℚ))) (maxSize : ℕ)
    (text : List Char) (cache : EmbCache) : Except PyError (List ℚ × EmbCache) :=
  match model? with
  | none => .error (.embeddingError "Embedding model not available".toList)
  | some encode => create_embeddings_go encode maxSize text cache

/-- The per-chunk embedding loop of `RAGService.process_document`
(lines 136-140): each chunk's `create_embeddings` exception propagates, and
only truthy (nonempty) embeddings are appended. -/
def embedChunks (model? : Option (List Char → Option (List ℚ))) (maxSize : ℕ) :
    List (List Char) → EmbCache → Except PyError (List (List ℚ) × EmbCache)
  | [], cache => .ok ([], cache)
  | ch :: rest, cache =>
    match create_embeddings model? maxSize ch cache with
    | .error e => .error e
    | .ok (v, c₁) =>
      match embedChunks model? maxSize rest c₁ with
      | .error e => .error e
      | .ok (vs, c₂) => .ok ((if v = [] then vs else v :: vs), c₂)

/-- `RAGService.process_document` (lines 126-147): empty result when the
model is unavailable, else the chunks of the content together with their
embeddings (skipping falsy ones, so the two lists can misalign). -/
def process_document (model? : Option (List Char → Option (List ℚ))) (maxSize : ℕ)
    (doc : Document) (cache : EmbCache) :
    Except PyError ((List (List Char) × List (List ℚ)) × EmbCache) :=
  match model? with
  | none => .ok (([], []), cache)
  | some _ =>
    let chunks := extract_chunks doc.content 500 100
    match embedChunks model? maxSize chunks cache with
    | .error e => .error e
    | .ok (embs, c₁) => .ok ((chunks, embs), c₁)

/-- One element of the `all_results` list of `find_relevant_chunks`
(lines 187-197). -/
structure ResultEntry where
  chunk : List Char
  relevance_score : ℝ
  semantic_score : ℝ
  temporal_score : ℝ
  domain_score : ℝ
  document_id : ℕ
  document_type : List Char
  uploaded_at : Date
  chunk_index : ℕ

/-- Builds the result dict appended for one chunk of one document. -/
noncomputable def mkEntry (cfg : RAGConfig) (now : Date) (qe : List ℚ)
    (query : List Char) (doc : Document) (i : ℕ) (chunk : List Char)
    (emb : List ℚ) : ResultEntry :=
  let r := calculate_enhanced_relevance cfg now qe emb doc chunk query
  { chunk := chunk
    relevance_score := r.total_score
    semantic_score := r.semantic_score
    temporal_score := r.temporal_score
    domain_score := r.domain_score
    document_id := doc.id
    document_type := doc.document_type
    uploaded_at := doc.uploaded_at
    chunk_index := i }

/-- The entries one document contributes when every chunk embeds
successfully: chunks zipped with the truthy embeddings the deterministic
embedder yields, enumerated and scored. Cache-free description of the body
of the document loop of `find_relevant_chunks` (lines 177-197). -/
noncomputable def entriesForDoc (encode : List Char → Option (List ℚ))
    (cfg : RAGConfig) (now : Date) (qe : List ℚ) (query : List Char)
    (doc : Document) : List ResultEntry :=
  let chunks := extract_chunks doc.content 500 100
  let embs := chunks.filterMap (fun ch =>
    (encode ch).bind (fun v => if v = [] then none else some v))
  ((chunks.zip embs).enum).filterMap (fun p =>
    if p.2.2 = [] then none
    else some (mkEntry cfg now qe query doc p.1 p.2.1 p.2.2))

/-- The document loop of `find_relevant_chunks` (lines 174-197): documents
processed in order against the shared cache; any `process_document`
exception aborts the loop. -/
noncomputable def processDocs (encode : List Char → Option (List ℚ))
    (cfg : RAGConfig) (maxSize : ℕ) (now : Date) (qe : List ℚ)
    (query : List Char) : List Document → EmbCache →
    Except PyError (List ResultEntry × EmbCache)
  | [], cache => .ok ([], cache)
  | doc :: rest, cache =>
    match process_document (some encode) maxSize doc cache with
    | .error e => .error e
    | .ok ((chunks, embs), c₁) =>
      let entries := ((chunks.zip embs).enum).filterMap (fun p =>
        if p.2.2 = [] then none
        else some (mkEntry cfg now qe query doc p.1 p.2.1 p.2.2))
      match processDocs encode cfg maxSize now qe query rest c₁ with
      | .error e => .error e
      | .ok (others, c₂) => .ok (entries ++ others, c₂)

/-- Stable insertion step for a descending sort by `key`: the new element
(earlier in the input) goes before the first element whose key is not
greater. -/
def insertKeyDesc {α : Type} {β : Type} [LinearOrder β] (key : α → β) (x : α) :
    List α → List α
  | [] => [x]
  | y :: ys => if key y ≤ key x then x :: y :: ys else y :: insertKeyDesc key x ys

/-- Stable descending sort by `key`, modelling both the SQL
`ORDER BY uploaded_at DESC` and Python's stable
`list.sort(key=..., reverse=True)`. -/
def sortKeyDesc {α : Type} {β : Type} [LinearOrder β] (key : α → β) :
    List α → List α
  | [] => []
  | x :: xs => insertKeyDesc key x (sortKeyDesc key xs)

/-- `db.query(Document).order_by(Document.uploaded_at.desc())`. -/
def sortByUploadedDesc (docs : List Document) : List Document :=
  sortKeyDesc (fun d => d.uploaded_at.toOrdinal) docs

/-- `all_results.sort(key=lambda x: x["relevance_score"], reverse=True)`
(stable, as Python's sort is). -/
noncomputable def sortByScore (l : List ResultEntry) : List ResultEntry :=
  sortKeyDesc (fun e => e.relevance_score) l

/-- The wrapping `raise RAGServiceError(f"Failed to find relevant chunks: ...")`
of the setup `try` block (lines 170-172). -/
def wrapFindErr : PyError → List Char
  | .embeddingError m => "Failed to find relevant chunks: ".toList ++ m
  | .ragServiceError m => "Failed to find relevant chunks: ".toList ++ m

/-- `RAGService.find_relevant_chunks` (lines 149-201): empty result without
a model; `RAGServiceError` for an empty/whitespace query or out-of-range
`top_k`; query embedding errors wrapped into `RAGServiceError`; then the
document loop (whose errors propagate unwrapped) followed by the stable
descending sort and the `top_k` truncation. -/
noncomputable def find_relevant_chunks (model? : Option (List Char → Option (List ℚ)))
    (cfg : RAGConfig) (maxSize : ℕ) (docs : List Document) (query : List Char)
    (top_k : ℤ) (now : Date) (cache : EmbCache) :
    Except PyError (List ResultEntry × EmbCache) :=
  match model? with
  | none => .ok ([], cache)
  | some encode =>
    if query.all (·.isWhitespace) then
      .error (.ragServiceError "Query cannot be empty".toList)
    else if top_k ≤ 0 ∨ 50 < top_k then
      .error (.ragServiceError "top_k must be between 1 and 50".toList)
    else
      match create_embeddings (some encode) maxSize query cache with
      | .error e => .error (.ragServiceError (wrapFindErr e))
      | .ok (qe, c₁) =>
        if qe = [] then .ok ([], c₁)
        else
          match processDocs encode cfg maxSize now qe query (sortByUploadedDesc docs) c₁ with
          | .error e => .error e
          | .ok (entries, c₂) => .ok ((sortByScore entries).take top_k.toNat, c₂)

/-- The ranked list before `top_k` truncation, as characterized for a
consistent cache: all documents' entries, stably sorted by composite score. -/
noncomputable def rankedResults (encode : List Char → Option (List ℚ))
    (cfg : RAGConfig) (now : Date) (qe : List ℚ) (query : List Char)
    (docs : List Document) : List ResultEntry :=
  sortByScore ((sortByUploadedDesc docs).flatMap (entriesForDoc encode cfg now qe query))

/-- A cache state every entry of which agrees with the deterministic
embedder: the invariant the class-level cache maintains. -/
def CacheConsistent (encode : List Char → Option (List ℚ)) (cache : EmbCache) : Prop :=
  ∀ p ∈ cache, encode p.1 = some p.2

/-! ### Helper lemmas -/

theorem splitextName_subset (cs : List Char) : splitextName cs ⊆ cs := by
  show (if cs.reverse.findIdx (· == '.') = cs.length then cs
    else if (cs.take (cs.length - 1 - cs.reverse.findIdx (· == '.'))).any (fun c => c != '.')
      then cs.take (cs.length - 1 - cs.reverse.findIdx (· == '.')) else cs) ⊆ cs
  split_ifs <;> first | exact fun _ h => h | exact List.take_subset _ _

theorem splitOnChar_no_sep (sep : Char) (cs : List Char) (h : sep ∉ cs) :
    splitOnChar sep cs = [cs] := by
  induction cs with
  | nil => rfl
  | cons c t ih =>
    have hc : ¬ c = sep := fun hcc => h (hcc ▸ List.mem_cons_self c t)
    have ht : sep ∉ t := fun htt => h (List.mem_cons_of_mem c htt)
    simp [splitOnChar, ih ht, hc]

/-! ### C10: filename date extraction needs an underscore-delimited first part -/

/-- C10. `extract_date_from_filename` yields a date exactly when the
extension-stripped filename splits on underscores into at least two parts
whose first part parses as a date in one of the accepted formats; a filename
without an underscore (such as `2024-01-10.pdf`) yields no date. -/
theorem extract_date_from_filename_needs_underscore :
    (∀ f d, extract_date_from_filename f = some d ↔
      ∃ p rest, splitOnChar '_' (splitextName f) = p :: rest ∧ rest ≠ []
        ∧ parseDateStr p = some d)
    ∧ (∀ f : List Char, '_' ∉ f → extract_date_from_filename f = none)
    ∧ extract_date_from_filename "2024-01-10.pdf".toList = none := by
  refine ⟨fun f d => ?_, fun f h => ?_, by decide⟩
  · unfold extract_date_from_filename
    rcases hs : splitOnChar '_' (splitextName f) with _ | ⟨p, _ | ⟨q, t⟩⟩
    · simp
    · simp
    · constructor
      · intro hp
        exact ⟨p, q :: t, rfl, by simp, hp⟩
      · rintro ⟨p', rest', heq, -, hp'⟩
        obtain ⟨rfl, rfl⟩ : p' = p ∧ rest' = q :: t := by
          constructor <;> injection heq <;> simp_all
        exact hp'
  · have hn : '_' ∉ splitextName f := fun hm => h (splitextName_subset f hm)
    unfold extract_date_from_filename
    rw [splitOnChar_no_sep _ _ hn]

/-- Witness for C10 at a concrete underscore-free filename. -/
theorem extract_date_from_filename_needs_underscore_witness :
    extract_date_from_filename "notes.txt".toList = none :=
  extract_date_from_filename_needs_underscore.2.1 "notes.txt".toList (by decide)

/-! ### C1: the manual override is not a factor of the document weight -/

/-- A CV snapshot with a filename date ten days before the chosen clock,
parameterized by its manual weight override. -/
def docWithOverride (k : ℚ) : Document :=
  ⟨1, "2024-01-10_CV_Acme.pdf".toList, "cv".toList, "data scientist".toList,
    ⟨2024, 1, 12⟩, k⟩

/-- C1. `calculate_document_weight` never reads `manual_weight`: the weight
of a document with override `k` equals the weight with override `1`, and in
particular at the concrete CV below the override-2 weight is not twice the
override-1 weight, contradicting the claimed linearity (and the repository's
own `tests/unit/test_manual_weight.py`). -/
theorem calculate_document_weight_ignores_manual_override :
    (∀ (cfg : RAGConfig) (now : Date) (doc : Document) (k : ℚ),
      calculate_document_weight cfg now { doc with manual_weight := k }
        = calculate_document_weight cfg now doc)
    ∧ calculate_document_weight defaultConfig ⟨2024, 1, 20⟩ (docWithOverride 2)
        = calculate_document_weight defaultConfig ⟨2024, 1, 20⟩ (docWithOverride 1)
    ∧ calculate_document_weight defaultConfig ⟨2024, 1, 20⟩ (docWithOverride 2)
        ≠ 2 * calculate_document_weight defaultConfig ⟨2024, 1, 20⟩ (docWithOverride 1) := by
  have hval : calculate_document_weight defaultConfig ⟨2024, 1, 20⟩ (docWithOverride 1)
      = 2 * max (1 / 10 : ℚ) (1 - 10 / 365) := by
    have hd : docDays ⟨2024, 1, 20⟩ (docWithOverride 1) = 10 := by decide
    have ht : (docWithOverride 1).document_type.map Char.toLower = "cv".toList := by decide
    unfold calculate_document_weight
    rw [hd, ht]
    show defaultConfig.base_weight * typeWeight defaultConfig "cv".toList
        * recencyMultiplier defaultConfig 10 = _
    unfold recencyMultiplier typeWeight defaultConfig
    norm_num
  refine ⟨fun _ _ _ _ => rfl, rfl, ?_⟩
  have h2 : calculate_document_weight defaultConfig ⟨2024, 1, 20⟩ (docWithOverride 2)
      = calculate_document_weight defaultConfig ⟨2024, 1, 20⟩ (docWithOverride 1) := rfl
  rw [h2, hval, max_eq_right (by norm_num : (1 / 10 : ℚ) ≤ 1 - 10 / 365)]
  norm_num

/-! ### C2, counterexample: the temporal sub-score exceeds 1 for a
future-dated document -/

/-- A document whose filename date (2030-01-01) lies after the clock used in
the counterexample. -/
def futureDoc : Document :=
  ⟨3, "2030-01-01_CV_X.pdf".toList, "cv".toList, "x".toList, ⟨2024, 1, 1⟩, 1⟩

/-- Counterexample to C2 as stated: the temporal sub-score returned by the
relevance scorer exceeds 1 for a document whose inferred date lies in the
future of the clock (here it is 2557/365). -/
theorem temporal_score_exceeds_one :
    1 < (calculate_enhanced_relevance defaultConfig ⟨2024, 1, 1⟩ [1] [1] futureDoc
      "x".toList "q".toList).temporal_score := by
  have hd : docDays ⟨2024, 1, 1⟩ futureDoc = -2192 := by decide
  have h : (1 : ℚ) < temporal_relevance defaultConfig ⟨2024, 1, 1⟩ futureDoc := by
    have he : temporal_relevance defaultConfig ⟨2024, 1, 1⟩ futureDoc
        = recencyMultiplier defaultConfig (-2192) := by
      unfold temporal_relevance
      rw [hd]
      rfl
    rw [he]
    unfold recencyMultiplier defaultConfig
    exact lt_of_lt_of_le (by push_cast; norm_num) (le_max_right _ _)
  have h2 : (1 : ℝ) < ((temporal_relevance defaultConfig ⟨2024, 1, 1⟩ futureDoc : ℚ) : ℝ) := by
    exact_mod_cast h
  simpa [calculate_enhanced_relevance] using h2

/-! ### C6: chunker characterization and round-trip -/

theorem chunksGo_flatten (t : List Char) (s o : ℕ) :
    ∀ (fuel st : ℕ), t.length ≤ st + fuel * (s - o) →
      ((chunksGo t s o fuel st).map (List.drop o)).flatten = t.drop (st + o) := by
  intro fuel
  induction fuel with
  | zero =>
    intro st hst
    simp only [chunksGo, List.map_nil, List.flatten_nil]
    exact (List.drop_eq_nil_of_le (by omega)).symm
  | succ fuel ih =>
    intro st hst
    by_cases hlt : st < t.length
    · simp only [chunksGo, if_pos hlt, List.map_cons, List.flatten_cons]
      have hrest : ((chunksGo t s o fuel (st + (s - o))).map (List.drop o)).flatten
          = t.drop (st + (s - o) + o) := by
        apply ih
        have hm : (fuel + 1) * (s - o) = (s - o) + fuel * (s - o) := by ring
        omega
      rw [hrest, List.drop_take]
      have hd1 : List.drop o (List.drop st t) = List.drop (st + o) t := by
        rw [List.drop_drop]
      have hd2 : List.drop (st + (s - o) + o) t = List.drop (s - o) (List.drop (st + o) t) := by
        rw [List.drop_drop]
        congr 1
        omega
      rw [hd1, hd2]
      exact List.take_append_drop _ _
    · simp only [chunksGo, if_neg hlt, List.map_nil, List.flatten_nil]
      exact (List.drop_eq_nil_of_le (by omega)).symm

theorem chunksGo_getElem (t : List Char) (s o : ℕ) :
    ∀ (fuel i st : ℕ) (ch : List Char),
      (chunksGo t s o fuel st)[i]? = some ch → ch = (t.drop (st + i * (s - o))).take s := by
  intro fuel
  induction fuel with
  | zero =>
    intro i st ch h
    simp [chunksGo] at h
  | succ fuel ih =>
    intro i st ch h
    by_cases hlt : st < t.length
    · simp only [chunksGo, if_pos hlt] at h
      cases i with
      | zero =>
        simp only [List.getElem?_cons_zero, Option.some.injEq] at h
        rw [← h]
        simp
      | succ i =>
        simp only [List.getElem?_cons_succ] at h
        have harith : st + (s - o) + i * (s - o) = st + (i + 1) * (s - o) := by
          rw [Nat.succ_mul]
          omega
        rw [ih i (st + (s - o)) ch h, harith]
    · simp only [chunksGo, if_neg hlt, List.getElem?_nil] at h
      exact Option.noConfusion h

/-- Counterexample to C6 as stated: with text `abcde`, size 3, overlap 2
(0 ≤ overlap < size), the window at index 3 is `de` — shorter than `size`
although it is not the last of the five windows. -/
theorem extract_chunks_nonlast_short_window :
    (extract_chunks "abcde".toList 3 2).length = 5
    ∧ (extract_chunks "abcde".toList 3 2)[3]? = some "de".toList
    ∧ "de".toList.length ≠ 3
    ∧ 3 < (extract_chunks "abcde".toList 3 2).length - 1 := by decide

/-- C6 (amended). For `overlap < size`: a text no longer than `size` is
returned whole as a single chunk; window `i` starts at `i * (size - overlap)`
and is the next `size` characters clipped at the end of the text (so every
window reaching past the end — not only the final one — may be shorter);
dropping the first `overlap` characters of every chunk after the first and
concatenating reproduces the text; and chunking is deterministic
(definitional in the pure embedding). -/
theorem extract_chunks_amended (t : List Char) (s o : ℕ) (ho : o < s) :
    (t.length ≤ s → extract_chunks t s o = [t])
    ∧ (∀ i ch, (extract_chunks t s o)[i]? = some ch → ch = (t.drop (i * (s - o))).take s)
    ∧ reconstruct o (extract_chunks t s o) = t
    ∧ extract_chunks t s o = extract_chunks t s o := by
  refine ⟨fun hle => ?_, fun i ch h => ?_, ?_, rfl⟩
  · unfold extract_chunks
    rw [if_pos hle]
  · by_cases hle : t.length ≤ s
    · unfold extract_chunks at h
      rw [if_pos hle] at h
      cases i with
      | zero =>
        simp only [List.getElem?_cons_zero, Option.some.injEq] at h
        rw [← h]
        simp [List.take_of_length_le hle]
      | succ i => simp at h
    · unfold extract_chunks at h
      rw [if_neg hle] at h
      have := chunksGo_getElem t s o t.length i 0 ch h
      simpa using this
  · by_cases hle : t.length ≤ s
    · unfold extract_chunks
      rw [if_pos hle]
      simp [reconstruct]
    · unfold extract_chunks
      rw [if_neg hle]
      obtain ⟨k, hk⟩ : ∃ k, t.length = k + 1 :=
        ⟨t.length - 1, by omega⟩
      rw [hk]
      have hpos : 0 < t.length := by omega
      have hstep : chunksGo t s o (k + 1) 0 = (t.drop 0).take s :: chunksGo t s o k (s - o) := by
        simp [chunksGo, hpos]
      rw [hstep]
      simp only [reconstruct]
      have hfuel : t.length ≤ (s - o) + k * (s - o) := by
        have h1 : (k + 1) * 1 ≤ (k + 1) * (s - o) :=
          Nat.mul_le_mul_left _ (by omega)
        have h2 : (k + 1) * (s - o) = (s - o) + k * (s - o) := by ring
        omega
      rw [chunksGo_flatten t s o k (s - o) hfuel]
      have hso : s - o + o = s := by omega
      rw [hso, List.drop_zero]
      exact List.take_append_drop _ _

/-- Witness for C6 at concrete inputs: the single-chunk case of the spec's
example and the round-trip at text `abcde`, size 3, overlap 2. -/
theorem extract_chunks_amended_witness :
    extract_chunks "short text".toList 500 100 = ["short text".toList]
    ∧ reconstruct 2 (extract_chunks "abcde".toList 3 2) = "abcde".toList :=
  ⟨(extract_chunks_amended "short text".toList 500 100 (by norm_num)).1 (by decide),
   (extract_chunks_amended "abcde".toList 3 2 (by norm_num)).2.2.1⟩

/-! ### C8: weight positivity, recency floor, and monotonicity in age -/

theorem typeWeight_pos (cfg : RAGConfig) (h : cfg.Valid) (t : List Char) :
    0 < typeWeight cfg t := by
  obtain ⟨-, -, -, -, h1, h2, h3, h4⟩ := h
  unfold typeWeight
  split_ifs <;> assumption

theorem recencyMultiplier_ge_floor (cfg : RAGConfig) (d : ℤ) :
    cfg.min_weight_multiplier ≤ recencyMultiplier cfg d :=
  le_max_left _ _

theorem recencyMultiplier_pos (cfg : RAGConfig) (h : cfg.Valid) (d : ℤ) :
    0 < recencyMultiplier cfg d :=
  lt_of_lt_of_le h.2.2.1 (recencyMultiplier_ge_floor cfg d)

theorem recencyMultiplier_antitone (cfg : RAGConfig) (h : cfg.Valid)
    {d₁ d₂ : ℤ} (hd : d₁ ≤ d₂) :
    recencyMultiplier cfg d₂ ≤ recencyMultiplier cfg d₁ := by
  unfold recencyMultiplier
  apply max_le_max (le_refl _)
  have hc : ((d₁ : ℚ)) ≤ (d₂ : ℚ) := by exact_mod_cast hd
  exact sub_le_sub_left ((div_le_div_iff_of_pos_right h.2.1).mpr hc) 1

theorem recencyMultiplier_le_one (cfg : RAGConfig) (h : cfg.Valid)
    {d : ℤ} (hd : 0 ≤ d) : recencyMultiplier cfg d ≤ 1 := by
  unfold recencyMultiplier
  apply max_le h.2.2.2.1
  have hq : (0 : ℚ) ≤ (d : ℚ) / cfg.recency_period_days :=
    div_nonneg (by exact_mod_cast hd) (le_of_lt h.2.1)
  linarith

theorem recencyMultiplier_eventually_floor (cfg : RAGConfig) (h : cfg.Valid)
    {d : ℤ} (hd : cfg.recency_period_days * (1 - cfg.min_weight_multiplier) ≤ (d : ℚ)) :
    recencyMultiplier cfg d = cfg.min_weight_multiplier := by
  unfold recencyMultiplier
  apply max_eq_left
  have hp : (0 : ℚ) < cfg.recency_period_days := h.2.1
  have h1 : 1 - cfg.min_weight_multiplier ≤ (d : ℚ) / cfg.recency_period_days := by
    rw [le_div_iff₀ hp]
    calc (1 - cfg.min_weight_multiplier) * cfg.recency_period_days
        = cfg.recency_period_days * (1 - cfg.min_weight_multiplier) := by ring
      _ ≤ (d : ℚ) := hd
  linarith

/-- C8. For a valid configuration the document weight is strictly positive;
holding document type fixed, the weight expression is non-increasing as the
computed `days_since_document` grows; the recency multiplier never drops
below the configured floor; and once the age reaches
`recency_period_days * (1 - min_weight_multiplier)` the multiplier equals
the floor exactly (so it tends to the floor as age grows without bound). -/
theorem calculate_document_weight_positive_monotone (cfg : RAGConfig) (now : Date)
    (doc : Document) (h : cfg.Valid) :
    0 < calculate_document_weight cfg now doc
    ∧ (∀ d₁ d₂ : ℤ, d₁ ≤ d₂ →
        cfg.base_weight * typeWeight cfg (doc.document_type.map Char.toLower)
            * recencyMultiplier cfg d₂
          ≤ cfg.base_weight * typeWeight cfg (doc.document_type.map Char.toLower)
            * recencyMultiplier cfg d₁)
    ∧ (∀ d : ℤ, cfg.min_weight_multiplier ≤ recencyMultiplier cfg d)
    ∧ (∀ d : ℤ, cfg.recency_period_days * (1 - cfg.min_weight_multiplier) ≤ (d : ℚ) →
        recencyMultiplier cfg d = cfg.min_weight_multiplier) := by
  refine ⟨?_, fun d₁ d₂ hd => ?_, fun d => recencyMultiplier_ge_floor cfg d,
    fun d hd => recencyMultiplier_eventually_floor cfg h hd⟩
  · unfold calculate_document_weight
    have hb := h.1
    have ht := typeWeight_pos cfg h (doc.document_type.map Char.toLower)
    by_cases he : cfg.recency_weighting_enabled
    · rw [if_pos he]
      exact mul_pos (mul_pos hb ht) (recencyMultiplier_pos cfg h _)
    · rw [if_neg he]
      simpa using mul_pos hb ht
  · have hnn : 0 ≤ cfg.base_weight * typeWeight cfg (doc.document_type.map Char.toLower) :=
      le_of_lt (mul_pos h.1 (typeWeight_pos cfg h _))
    rw [mul_assoc, mul_assoc]
    exact mul_le_mul_of_nonneg_left
      (mul_le_mul_of_nonneg_left (recencyMultiplier_antitone cfg h hd)
        (le_of_lt (typeWeight_pos cfg h _))) (le_of_lt h.1)

theorem defaultConfig_valid : defaultConfig.Valid := by
  refine ⟨?_, ?_, ?_, ?_, ?_, ?_, ?_, ?_⟩ <;> norm_num [defaultConfig]

/-- Witness for C8 at the default configuration and a concrete document. -/
theorem calculate_document_weight_positive_monotone_witness :
    0 < calculate_document_weight defaultConfig ⟨2024, 1, 20⟩ (docWithOverride 1)
    ∧ defaultConfig.base_weight
          * typeWeight defaultConfig ((docWithOverride 1).document_type.map Char.toLower)
          * recencyMultiplier defaultConfig 5
        ≤ defaultConfig.base_weight
          * typeWeight defaultConfig ((docWithOverride 1).document_type.map Char.toLower)
          * recencyMultiplier defaultConfig 3
    ∧ defaultConfig.min_weight_multiplier ≤ recencyMultiplier defaultConfig 7
    ∧ recencyMultiplier defaultConfig 400 = defaultConfig.min_weight_multiplier :=
  ⟨(calculate_document_weight_positive_monotone defaultConfig ⟨2024, 1, 20⟩
      (docWithOverride 1) defaultConfig_valid).1,
   (calculate_document_weight_positive_monotone defaultConfig ⟨2024, 1, 20⟩
      (docWithOverride 1) defaultConfig_valid).2.1 3 5 (by norm_num),
   (calculate_document_weight_positive_monotone defaultConfig ⟨2024, 1, 20⟩
      (docWithOverride 1) defaultConfig_valid).2.2.1 7,
   (calculate_document_weight_positive_monotone defaultConfig ⟨2024, 1, 20⟩
      (docWithOverride 1) defaultConfig_valid).2.2.2 400 (by push_cast; norm_num [defaultConfig])⟩

/-! ### C2 (amended): score bounds -/

theorem cosine_similarity_nonneg (v1 v2 : List ℚ) : 0 ≤ cosine_similarity v1 v2 := by
  unfold cosine_similarity
  split_ifs
  · exact le_refl 0
  · exact le_refl 0
  · exact le_max_left _ _

theorem cosine_similarity_le_one (v1 v2 : List ℚ) : cosine_similarity v1 v2 ≤ 1 := by
  unfold cosine_similarity
  split_ifs
  · norm_num
  · norm_num
  · exact max_le (by norm_num) (min_le_left _ _)

theorem cqLengthScore_nonneg (chunk : List Char) : 0 ≤ cqLengthScore chunk := by
  unfold cqLengthScore
  split_ifs <;> norm_num

theorem cqSentenceScore_nonneg (chunk : List Char) : 0 ≤ cqSentenceScore chunk := by
  simp only [cqSentenceScore]
  split_ifs <;> norm_num

theorem cqDensityScore_nonneg (chunk query : List Char) : 0 ≤ cqDensityScore chunk query := by
  simp only [cqDensityScore]
  split_ifs <;> norm_num

theorem content_quality_bounds (chunk query : List Char) :
    0 ≤ content_quality chunk query ∧ content_quality chunk query ≤ 1 := by
  unfold content_quality
  split_ifs
  · norm_num
  · exact ⟨le_min (by norm_num)
      (add_nonneg (add_nonneg (cqLengthScore_nonneg chunk) (cqSentenceScore_nonneg chunk))
        (cqDensityScore_nonneg chunk query)),
      min_le_left _ _⟩

theorem frequency_score_bounds (chunk query : List Char) :
    0 ≤ frequency_score chunk query ∧ frequency_score chunk query ≤ 1 := by
  simp only [frequency_score]
  split_ifs <;>
    first
      | exact ⟨le_refl 0, by norm_num⟩
      | exact ⟨le_min (by norm_num) (div_nonneg (by positivity) (by positivity)),
          min_le_left _ _⟩

theorem domain_relevance_bounds (cfg : RAGConfig) (doc : Document) (h : cfg.Valid) :
    0 ≤ domain_relevance cfg doc ∧ domain_relevance cfg doc ≤ 1 := by
  unfold domain_relevance
  exact ⟨le_min (by norm_num)
      (div_nonneg (le_of_lt (typeWeight_pos cfg h _)) (by norm_num)),
    min_le_left _ _⟩

theorem temporal_relevance_pos (cfg : RAGConfig) (now : Date) (doc : Document)
    (h : cfg.Valid) : 0 < temporal_relevance cfg now doc := by
  unfold temporal_relevance
  split_ifs
  · exact recencyMultiplier_pos cfg h _
  · norm_num

theorem temporal_relevance_le_one (cfg : RAGConfig) (now : Date) (doc : Document)
    (h : cfg.Valid) (hd : 0 ≤ docDays now doc) : temporal_relevance cfg now doc ≤ 1 := by
  unfold temporal_relevance
  split_ifs
  · exact recencyMultiplier_le_one cfg h hd
  · norm_num

theorem total_score_bounds (cfg : RAGConfig) (now : Date) (qe ce : List ℚ)
    (doc : Document) (chunk query : List Char) (h : cfg.Valid)
    (ht : temporal_relevance cfg now doc ≤ 1) :
    0 ≤ (calculate_enhanced_relevance cfg now qe ce doc chunk query).total_score
      ∧ (calculate_enhanced_relevance cfg now qe ce doc chunk query).total_score ≤ 1 := by
  have hs0 := cosine_similarity_nonneg qe ce
  have hs1 := cosine_similarity_le_one qe ce
  have ht0 : (0 : ℝ) ≤ ((temporal_relevance cfg now doc : ℚ) : ℝ) := by
    exact_mod_cast le_of_lt (temporal_relevance_pos cfg now doc h)
  have ht1 : ((temporal_relevance cfg now doc : ℚ) : ℝ) ≤ 1 := by exact_mod_cast ht
  have hdm := domain_relevance_bounds cfg doc h
  have hdm0 : (0 : ℝ) ≤ ((domain_relevance cfg doc : ℚ) : ℝ) := by exact_mod_cast hdm.1
  have hdm1 : ((domain_relevance cfg doc : ℚ) : ℝ) ≤ 1 := by exact_mod_cast hdm.2
  have hc := content_quality_bounds chunk query
  have hc0 : (0 : ℝ) ≤ ((content_quality chunk query : ℚ) : ℝ) := by exact_mod_cast hc.1
  have hc1 : ((content_quality chunk query : ℚ) : ℝ) ≤ 1 := by exact_mod_cast hc.2
  have hf := frequency_score_bounds chunk query
  have hf0 : (0 : ℝ) ≤ ((frequency_score chunk query : ℚ) : ℝ) := by exact_mod_cast hf.1
  have hf1 : ((frequency_score chunk query : ℚ) : ℝ) ≤ 1 := by exact_mod_cast hf.2
  simp only [calculate_enhanced_relevance]
  constructor <;> nlinarith

/-- C2 (amended). For every well-formed input and valid configuration: the
semantic, domain, content-quality and frequency sub-scores lie in the unit
interval unconditionally (including empty chunk, empty query and zero-vector
embeddings); the temporal sub-score is strictly positive and lies below 1
whenever the document's inferred date is not after the clock — but, per the
counterexample, not for future-dated documents; and the composite score lies
in the unit interval whenever the temporal sub-score does. -/
theorem relevance_scores_bounds (cfg : RAGConfig) (now : Date) (qe ce : List ℚ)
    (doc : Document) (chunk query : List Char) (h : cfg.Valid) :
    (0 ≤ (calculate_enhanced_relevance cfg now qe ce doc chunk query).semantic_score
      ∧ (calculate_enhanced_relevance cfg now qe ce doc chunk query).semantic_score ≤ 1)
    ∧ (0 ≤ domain_relevance cfg doc ∧ domain_relevance cfg doc ≤ 1)
    ∧ (0 ≤ content_quality chunk query ∧ content_quality chunk query ≤ 1)
    ∧ (0 ≤ frequency_score chunk query ∧ frequency_score chunk query ≤ 1)
    ∧ 0 < temporal_relevance cfg now doc
    ∧ (0 ≤ docDays now doc → temporal_relevance cfg now doc ≤ 1)
    ∧ (temporal_relevance cfg now doc ≤ 1 →
        0 ≤ (calculate_enhanced_relevance cfg now qe ce doc chunk query).total_score
          ∧ (calculate_enhanced_relevance cfg now qe ce doc chunk query).total_score ≤ 1) := by
  refine ⟨?_, domain_relevance_bounds cfg doc h, content_quality_bounds chunk query,
    frequency_score_bounds chunk query, temporal_relevance_pos cfg now doc h,
    temporal_relevance_le_one cfg now doc h,
    total_score_bounds cfg now qe ce doc chunk query h⟩
  have h0 := cosine_similarity_nonneg qe ce
  have h1 := cosine_similarity_le_one qe ce
  simp only [calculate_enhanced_relevance]
  exact ⟨h0, h1⟩

/-- Witness for C2 (amended) at the default configuration, a concrete past
document, a zero query vector and an empty chunk. -/
theorem relevance_scores_bounds_witness :
    (0 ≤ content_quality [] "q".toList ∧ content_quality [] "q".toList ≤ 1)
    ∧ (0 ≤ docDays ⟨2024, 1, 20⟩ (docWithOverride 1) →
        temporal_relevance defaultConfig ⟨2024, 1, 20⟩ (docWithOverride 1) ≤ 1)
    ∧ (0 ≤ (calculate_enhanced_relevance defaultConfig ⟨2024, 1, 20⟩ [0] [0]
          (docWithOverride 1) [] "q".toList).total_score
        ∧ (calculate_enhanced_relevance defaultConfig ⟨2024, 1, 20⟩ [0] [0]
          (docWithOverride 1) [] "q".toList).total_score ≤ 1) :=
  ⟨(relevance_scores_bounds defaultConfig ⟨2024, 1, 20⟩ [0] [0] (docWithOverride 1) []
      "q".toList defaultConfig_valid).2.2.1,
   (relevance_scores_bounds defaultConfig ⟨2024, 1, 20⟩ [0] [0] (docWithOverride 1) []
      "q".toList defaultConfig_valid).2.2.2.2.2.1,
   (relevance_scores_bounds defaultConfig ⟨2024, 1, 20⟩ [0] [0] (docWithOverride 1) []
      "q".toList defaultConfig_valid).2.2.2.2.2.2
     ((relevance_scores_bounds defaultConfig ⟨2024, 1, 20⟩ [0] [0] (docWithOverride 1) []
        "q".toList defaultConfig_valid).2.2.2.2.2.1 (by decide))⟩

/-! ### C5: cache correctness -/

theorem cacheLookup_mem {cache : EmbCache} {t : List Char} {v : List ℚ}
    (h : cacheLookup cache t = some v) : (t, v) ∈ cache := by
  unfold cacheLookup at h
  cases hf : cache.find? (fun e => decide (e.1 = t)) with
  | none => rw [hf] at h; simp at h
  | some e =>
    rw [hf] at h
    have h2 : e.2 = v := by simpa using h
    have he := List.mem_of_find?_eq_some hf
    have hp := List.find?_some hf
    simp only [decide_eq_true_eq] at hp
    obtain ⟨e1, e2⟩ := e
    have hp' : e1 = t := hp
    have h' : e2 = v := h2
    subst hp'
    subst h'
    exact he

theorem cacheLookup_none_forall {cache : EmbCache} {t : List Char}
    (h : cacheLookup cache t = none) : ∀ e ∈ cache, e.1 ≠ t := by
  unfold cacheLookup at h
  cases hf : cache.find? (fun e => decide (e.1 = t)) with
  | some e => rw [hf] at h; simp at h
  | none =>
    intro e he
    have := List.find?_eq_none.mp hf e he
    simpa using this

theorem cacheLookup_append_self {cache : EmbCache} {t : List Char} {v : List ℚ}
    (h : ∀ e ∈ cache, e.1 ≠ t) : cacheLookup (cache ++ [(t, v)]) t = some v := by
  induction cache with
  | nil => simp [cacheLookup, List.find?]
  | cons e rest ih =>
    have hne : ¬ (e.1 = t) := h e (List.mem_cons_self e rest)
    have hrest : ∀ x ∈ rest, x.1 ≠ t := fun x hx => h x (List.mem_cons_of_mem e hx)
    unfold cacheLookup at ih ⊢
    rw [List.cons_append, List.find?_cons]
    rw [decide_eq_false hne]
    exact ih hrest

/-- Inversion of a successful `create_embeddings` call. -/
theorem create_embeddings_ok_inv {encode : List Char → Option (List ℚ)} {maxSize : ℕ}
    {t : List Char} {c : EmbCache} {v : List ℚ} {c' : EmbCache}
    (h : create_embeddings (some encode) maxSize t c = .ok (v, c')) :
    ¬ t.all (·.isWhitespace) = true
    ∧ ((cacheLookup c t = some v ∧ c' = c)
      ∨ (cacheLookup c t = none ∧ encode t = some v
          ∧ ((maxSize ≤ c.length ∧ ∃ d rest, c = d :: rest ∧ c' = rest ++ [(t, v)])
            ∨ (¬ maxSize ≤ c.length ∧ c' = c ++ [(t, v)])))) := by
  replace h : create_embeddings_go encode maxSize t c = .ok (v, c') := h
  unfold create_embeddings_go at h
  by_cases hws : t.all (·.isWhitespace) = true
  · rw [if_pos hws] at h
    exact absurd h (by simp)
  · rw [if_neg hws] at h
    refine ⟨hws, ?_⟩
    rcases hl : cacheLookup c t with - | v0
    · rw [hl] at h
      dsimp only at h
      rcases he : encode t with - | v0
      · rw [he] at h
        dsimp only at h
        exact absurd h (by simp)
      · rw [he] at h
        dsimp only at h
        by_cases hm : maxSize ≤ c.length
        · rw [if_pos hm] at h
          rcases hc : c with - | ⟨d, rest⟩
          · rw [hc] at h
            dsimp only at h
            exact absurd h (by simp)
          · rw [hc] at h
            dsimp only at h
            simp only [Except.ok.injEq, Prod.mk.injEq] at h
            refine Or.inr ⟨rfl, ?_, Or.inl ⟨hc ▸ hm, d, rest, rfl, ?_⟩⟩
            · rw [h.1]
            · rw [← h.2, h.1]
        · rw [if_neg hm] at h
          simp only [Except.ok.injEq, Prod.mk.injEq] at h
          refine Or.inr ⟨rfl, ?_, Or.inr ⟨hm, ?_⟩⟩
          · rw [h.1]
          · rw [← h.2, h.1]
    · rw [hl] at h
      dsimp only at h
      simp only [Except.ok.injEq, Prod.mk.injEq] at h
      refine Or.inl ⟨?_, h.2.symm⟩
      rw [h.1]

theorem create_embeddings_ok_lookup {encode : List Char → Option (List ℚ)} {maxSize : ℕ}
    {t : List Char} {c : EmbCache} {v : List ℚ} {c' : EmbCache}
    (h : create_embeddings (some encode) maxSize t c = .ok (v, c')) :
    cacheLookup c' t = some v ∧ ¬ t.all (·.isWhitespace) = true := by
  obtain ⟨hws, hcase⟩ := create_embeddings_ok_inv h
  refine ⟨?_, hws⟩
  rcases hcase with ⟨hl, rfl⟩ | ⟨hl, -, ⟨-, d, rest, rfl, rfl⟩ | ⟨-, rfl⟩⟩
  · exact hl
  · have hall := cacheLookup_none_forall hl
    exact cacheLookup_append_self (fun e he => hall e (List.mem_cons_of_mem d he))
  · exact cacheLookup_append_self (cacheLookup_none_forall hl)

theorem create_embeddings_second_call {encode : List Char → Option (List ℚ)} {maxSize : ℕ}
    {t : List Char} {c : EmbCache} {v : List ℚ} {c' : EmbCache}
    (h : create_embeddings (some encode) maxSize t c = .ok (v, c'))
    (encode₂ : List Char → Option (List ℚ)) :
    create_embeddings (some encode₂) maxSize t c' = .ok (v, c') := by
  obtain ⟨hl, hws⟩ := create_embeddings_ok_lookup h
  show create_embeddings_go encode₂ maxSize t c' = .ok (v, c')
  unfold create_embeddings_go
  rw [if_neg hws, hl]

theorem create_embeddings_ok_length {model? : Option (List Char → Option (List ℚ))}
    {maxSize : ℕ} {t : List Char} {c : EmbCache} {v : List ℚ} {c' : EmbCache}
    (hlen : c.length ≤ maxSize)
    (h : create_embeddings model? maxSize t c = .ok (v, c')) : c'.length ≤ maxSize := by
  cases model? with
  | none => exact absurd h (by simp [create_embeddings])
  | some encode =>
    obtain ⟨-, hcase⟩ := create_embeddings_ok_inv h
    rcases hcase with ⟨-, rfl⟩ | ⟨-, -, ⟨-, d, rest, hc, rfl⟩ | ⟨hm, rfl⟩⟩
    · exact hlen
    · have : c.length = rest.length + 1 := by rw [hc]; simp
      simp only [List.length_append, List.length_cons, List.length_nil]
      omega
    · simp only [List.length_append, List.length_cons, List.length_nil]
      omega

theorem create_embeddings_ok_consistent {encode : List Char → Option (List ℚ)}
    {maxSize : ℕ} {t : List Char} {c : EmbCache} {v : List ℚ} {c' : EmbCache}
    (hcons : CacheConsistent encode c)
    (h : create_embeddings (some encode) maxSize t c = .ok (v, c')) :
    encode t = some v ∧ CacheConsistent encode c' := by
  obtain ⟨-, hcase⟩ := create_embeddings_ok_inv h
  rcases hcase with ⟨hl, rfl⟩ | ⟨-, he, ⟨-, d, rest, hc, rfl⟩ | ⟨-, rfl⟩⟩
  · exact ⟨hcons _ (cacheLookup_mem hl), hcons⟩
  · refine ⟨he, fun p hp => ?_⟩
    rcases List.mem_append.mp hp with hp | hp
    · exact hcons p (hc ▸ List.mem_cons_of_mem d hp)
    · rw [List.mem_singleton.mp hp]
      exact he
  · refine ⟨he, fun p hp => ?_⟩
    rcases List.mem_append.mp hp with hp | hp
    · exact hcons p hp
    · rw [List.mem_singleton.mp hp]
      exact he

/-- C5. Cache correctness of `create_embeddings`: (1) after a successful
call for `text`, a second call with the same text returns the stored vector
with the cache unchanged, whatever embedder is supplied — i.e. the embedder
is not consulted again, so two successive identical calls invoke it at most
once; (2) a call never grows the cache beyond the configured maximum size
(when full, the oldest entry is evicted before the insert). -/
theorem create_embeddings_cache_correct :
    (∀ (encode encode₂ : List Char → Option (List ℚ)) (maxSize : ℕ) (t : List Char)
        (c : EmbCache) (v : List ℚ) (c' : EmbCache),
        create_embeddings (some encode) maxSize t c = .ok (v, c') →
        create_embeddings (some encode₂) maxSize t c' = .ok (v, c'))
    ∧ (∀ (model? : Option (List Char → Option (List ℚ))) (maxSize : ℕ) (t : List Char)
        (c : EmbCache) (v : List ℚ) (c' : EmbCache), c.length ≤ maxSize →
        create_embeddings model? maxSize t c = .ok (v, c') → c'.length ≤ maxSize) :=
  ⟨fun _ encode₂ _ _ _ _ _ h => create_embeddings_second_call h encode₂,
   fun _ _ _ _ _ _ hlen h => create_embeddings_ok_length hlen h⟩

/-- An embedder returning the vector `[1]` for every text. -/
def encOne : List Char → Option (List ℚ) := fun _ => some [1]

/-- An embedder returning the vector `[0]` for every text: used to show the
second cache call ignores the embedder. -/
def encZero : List Char → Option (List ℚ) := fun _ => some [0]

/-- Witness for C5: after `encOne` populates the cache for `hi`, a second
call with the different embedder `encZero` still returns the stored `[1]`
and leaves the cache unchanged; and the one-entry cache respects the bound. -/
theorem create_embeddings_cache_correct_witness :
    create_embeddings (some encZero) 1000 "hi".toList [("hi".toList, [1])]
      = .ok ([1], [("hi".toList, [1])])
    ∧ ([("hi".toList, [1])] : EmbCache).length ≤ 1000 :=
  ⟨create_embeddings_cache_correct.1 encOne encZero 1000 "hi".toList [] [1]
      [("hi".toList, [1])] (by rfl),
   create_embeddings_cache_correct.2 (some encOne) 1000 "hi".toList [] [1]
      [("hi".toList, [1])] (by norm_num) (by rfl)⟩

/-! ### C4: empty query and empty document text raise -/

/-- A document whose stored text is empty. -/
def emptyDoc : Document :=
  ⟨7, "empty.txt".toList, "cv".toList, [], ⟨2024, 1, 1⟩, 1⟩

/-- Counterexample to C4 as stated: retrieval with an empty or
all-whitespace query raises `RAGServiceError`, and processing a document
with empty text raises `EmbeddingError` from `create_embeddings`, instead of
completing with a zero contribution. -/
theorem malformed_input_raises :
    find_relevant_chunks (some encOne) defaultConfig 1000 [] "".toList 5 ⟨2024, 1, 1⟩ []
      = .error (.ragServiceError "Query cannot be empty".toList)
    ∧ find_relevant_chunks (some encOne) defaultConfig 1000 [] "   ".toList 5 ⟨2024, 1, 1⟩ []
      = .error (.ragServiceError "Query cannot be empty".toList)
    ∧ process_document (some encOne) 1000 emptyDoc []
      = .error (.embeddingError "Text cannot be empty".toList)
    ∧ create_embeddings (some encOne) 1000 "".toList []
      = .error (.embeddingError "Text cannot be empty".toList) :=
  ⟨rfl, rfl, rfl, rfl⟩

/-- C4 (amended). An empty or all-whitespace query makes
`find_relevant_chunks` raise `RAGServiceError("Query cannot be empty")`;
empty or all-whitespace text makes `create_embeddings` raise
`EmbeddingError("Text cannot be empty")`; and a document with empty text
makes `process_document` propagate that `EmbeddingError`. Neither input is
degraded to a zero contribution. -/
theorem malformed_input_behavior :
    (∀ (encode : List Char → Option (List ℚ)) (cfg : RAGConfig) (maxSize : ℕ)
        (docs : List Document) (query : List Char) (k : ℤ) (now : Date) (cache : EmbCache),
        query.all (·.isWhitespace) = true →
        find_relevant_chunks (some encode) cfg maxSize docs query k now cache
          = .error (.ragServiceError "Query cannot be empty".toList))
    ∧ (∀ (encode : List Char → Option (List ℚ)) (maxSize : ℕ) (text : List Char)
        (cache : EmbCache), text.all (·.isWhitespace) = true →
        create_embeddings (some encode) maxSize text cache
          = .error (.embeddingError "Text cannot be empty".toList))
    ∧ (∀ (encode : List Char → Option (List ℚ)) (maxSize : ℕ) (doc : Document)
        (cache : EmbCache), doc.content = [] →
        process_document (some encode) maxSize doc cache
          = .error (.embeddingError "Text cannot be empty".toList)) := by
  have hcr : ∀ (encode : List Char → Option (List ℚ)) (maxSize : ℕ) (text : List Char)
      (cache : EmbCache), text.all (·.isWhitespace) = true →
      create_embeddings (some encode) maxSize text cache
        = .error (.embeddingError "Text cannot be empty".toList) := by
    intro encode maxSize text cache hws
    show create_embeddings_go encode maxSize text cache = _
    unfold create_embeddings_go
    rw [if_pos hws]
  refine ⟨?_, hcr, ?_⟩
  · intro encode cfg maxSize docs query k now cache hq
    unfold find_relevant_chunks
    dsimp only
    rw [if_pos hq]
  · intro encode maxSize doc cache hcontent
    unfold process_document
    dsimp only
    rw [hcontent]
    have hchunks : extract_chunks [] 500 100 = [[]] := rfl
    rw [hchunks]
    have hemb : embedChunks (some encode) maxSize [[]] cache
        = .error (.embeddingError "Text cannot be empty".toList) := by
      unfold embedChunks
      rw [hcr encode maxSize [] cache rfl]
    rw [hemb]

/-- Witness for C4 at concrete malformed inputs. -/
theorem malformed_input_behavior_witness :
    find_relevant_chunks (some encZero) defaultConfig 1000 [] " ".toList 3 ⟨2024, 1, 1⟩ []
      = .error (.ragServiceError "Query cannot be empty".toList)
    ∧ create_embeddings (some encZero) 1000 "  ".toList []
      = .error (.embeddingError "Text cannot be empty".toList)
    ∧ process_document (some encZero) 1000 emptyDoc []
      = .error (.embeddingError "Text cannot be empty".toList) :=
  ⟨malformed_input_behavior.1 encZero defaultConfig 1000 [] " ".toList 3 ⟨2024, 1, 1⟩ []
      (by decide),
   malformed_input_behavior.2.1 encZero 1000 "  ".toList [] (by decide),
   malformed_input_behavior.2.2 encZero 1000 emptyDoc [] rfl⟩

/-! ### C7: date-inference precedence and the first-parsing-date reading -/

theorem mkDatetime_valid {y m d : ℕ} {dt : Date} (h : mkDatetime y m d = some dt) :
    validDate dt.year dt.month dt.day = true := by
  unfold mkDatetime at h
  split_ifs at h with hv
  injection h with h2
  rw [← h2]
  exact hv

theorem extractContentP2_valid {content : List Char} {d : Date}
    (h : extractContentP2 content = some d) : validDate d.year d.month d.day = true := by
  unfold extractContentP2 at h
  rcases hs : searchFirst matchP2At content with - | ⟨a, b, c⟩
  · rw [hs] at h
    exact Option.noConfusion h
  · rw [hs] at h
    dsimp only at h
    rcases hm : mkDatetime c b a with - | dt
    · rw [hm] at h
      simp only [Option.none_orElse] at h
      exact mkDatetime_valid h
    · rw [hm] at h
      simp only [Option.some_orElse, Option.some.injEq] at h
      exact h ▸ mkDatetime_valid hm

theorem extract_date_from_content_valid {content : List Char} {d : Date}
    (h : extract_date_from_content content = some d) :
    validDate d.year d.month d.day = true := by
  unfold extract_date_from_content at h
  rcases hs : searchFirst matchP1At content with - | ⟨y, m, dd⟩
  · rw [hs] at h
    exact extractContentP2_valid h
  · rw [hs] at h
    dsimp only at h
    rcases hm : mkDatetime y m dd with - | dt
    · rw [hm] at h
      exact extractContentP2_valid h
    · rw [hm] at h
      simp only [Option.some.injEq] at h
      exact h ▸ mkDatetime_valid hm

/-- Counterexample to C7 as stated: in the content
`1-2-2019 and 2020-03-04` the first date-like pattern that parses to a valid
calendar date is `1-2-2019` (2019-02-01, per the spec-modelled
`claimedFirstParsingDate`), but the source searches the whole content for
the year-first pattern before ever trying the year-last pattern, and infers
2020-03-04. -/
theorem content_date_not_first_parsing :
    extract_date_from_content "1-2-2019 and 2020-03-04".toList = some ⟨2020, 3, 4⟩
    ∧ claimedFirstParsingDate "1-2-2019 and 2020-03-04".toList = some ⟨2019, 2, 1⟩
    ∧ inferredDate "notes.txt".toList "1-2-2019 and 2020-03-04".toList ⟨2024, 5, 5⟩
        = ⟨2020, 3, 4⟩
    ∧ (⟨2020, 3, 4⟩ : Date) ≠ ⟨2019, 2, 1⟩ :=
  ⟨rfl, rfl, rfl, by decide⟩

/-- C7 (amended). The inferred effective date obeys the precedence: the
filename date when one parses; else the content date produced by
`_extract_date_from_content`, which uses the first `re.search` match of the
year-first pattern and only falls back to the year-last pattern (day-month
then month-day orderings) when the year-first pattern has no parsing first
match — later matches of a pattern are never visited; else the fallback
upload timestamp. Every inferred content date is a valid calendar date and
no input raises (the embedding is total). The claim's example still holds:
content `Started role in 2019-03-01...` with no filename date infers
2019-03-01, not the ingestion timestamp. -/
theorem date_inference_precedence :
    (∀ (fn content : List Char) (fb : Date) (d : Date),
        extract_date_from_filename fn = some d → inferredDate fn content fb = d)
    ∧ (∀ (fn content : List Char) (fb : Date) (d : Date),
        extract_date_from_filename fn = none →
        extract_date_from_content content = some d → inferredDate fn content fb = d)
    ∧ (∀ (fn content : List Char) (fb : Date),
        extract_date_from_filename fn = none →
        extract_date_from_content content = none → inferredDate fn content fb = fb)
    ∧ (∀ (content : List Char) (d : Date), extract_date_from_content content = some d →
        validDate d.year d.month d.day = true)
    ∧ inferredDate "notes.txt".toList "Started role in 2019-03-01...".toList ⟨2024, 1, 1⟩
        = ⟨2019, 3, 1⟩
    ∧ (⟨2019, 3, 1⟩ : Date) ≠ ⟨2024, 1, 1⟩ := by
  refine ⟨?_, ?_, ?_, fun content d h => extract_date_from_content_valid h, rfl, by decide⟩
  · intro fn content fb d h
    unfold inferredDate
    rw [h]
  · intro fn content fb d h1 h2
    unfold inferredDate
    rw [h1, h2]
  · intro fn content fb h1 h2
    unfold inferredDate
    rw [h1, h2]

/-- Witness for C7: a filename date takes precedence over everything, and a
dateless filename and content fall back to the upload timestamp. -/
theorem date_inference_precedence_witness :
    inferredDate "2024-01-10_CV_Acme.pdf".toList "x".toList ⟨2020, 2, 2⟩ = ⟨2024, 1, 10⟩
    ∧ inferredDate "notes.txt".toList "no dates here".toList ⟨2024, 2, 2⟩ = ⟨2024, 2, 2⟩ :=
  ⟨date_inference_precedence.1 "2024-01-10_CV_Acme.pdf".toList "x".toList ⟨2020, 2, 2⟩
      ⟨2024, 1, 10⟩ (by decide),
   date_inference_precedence.2.2.1 "notes.txt".toList "no dates here".toList ⟨2024, 2, 2⟩
      (by decide) (by decide)⟩

/-! ### Stable descending sort: permutation, order, and stability -/

theorem insertKeyDesc_perm {α β : Type} [LinearOrder β] (key : α → β) (x : α)
    (l : List α) : (insertKeyDesc key x l).Perm (x :: l) := by
  induction l with
  | nil => exact List.Perm.refl _
  | cons y ys ih =>
    unfold insertKeyDesc
    split_ifs
    · exact List.Perm.refl _
    · exact (ih.cons y).trans (List.Perm.swap x y ys)

theorem sortKeyDesc_perm {α β : Type} [LinearOrder β] (key : α → β) (l : List α) :
    (sortKeyDesc key l).Perm l := by
  induction l with
  | nil => exact List.Perm.refl _
  | cons x xs ih =>
    exact (insertKeyDesc_perm key x (sortKeyDesc key xs)).trans (ih.cons x)

theorem mem_sortKeyDesc {α β : Type} [LinearOrder β] {key : α → β} {a : α}
    {l : List α} : a ∈ sortKeyDesc key l ↔ a ∈ l :=
  (sortKeyDesc_perm key l).mem_iff

theorem mem_insertKeyDesc {α β : Type} [LinearOrder β] {key : α → β} {a x : α}
    {l : List α} : a ∈ insertKeyDesc key x l ↔ a = x ∨ a ∈ l := by
  rw [(insertKeyDesc_perm key x l).mem_iff, List.mem_cons]

theorem sublist_insertKeyDesc {α β : Type} [LinearOrder β] (key : α → β) (x : α)
    (l : List α) : List.Sublist l (insertKeyDesc key x l) := by
  induction l with
  | nil => exact List.nil_sublist _
  | cons y ys ih =>
    unfold insertKeyDesc
    split_ifs
    · exact List.sublist_cons_self x (y :: ys)
    · exact ih.cons₂ y

theorem insertKeyDesc_pairwise {α β : Type} [LinearOrder β] {key : α → β} (x : α)
    {l : List α} (hp : l.Pairwise (fun u v => key v ≤ key u)) :
    (insertKeyDesc key x l).Pairwise (fun u v => key v ≤ key u) := by
  induction l with
  | nil => simp [insertKeyDesc]
  | cons y ys ih =>
    unfold insertKeyDesc
    rcases List.pairwise_cons.mp hp with ⟨hy, hys⟩
    split_ifs with hc
    · refine List.pairwise_cons.mpr ⟨?_, hp⟩
      intro v hv
      rcases List.mem_cons.mp hv with rfl | hv
      · exact hc
      · exact le_trans (hy v hv) hc
    · refine List.pairwise_cons.mpr ⟨?_, ih hys⟩
      intro v hv
      rcases mem_insertKeyDesc.mp hv with rfl | hv
      · exact le_of_lt (lt_of_not_le hc)
      · exact hy v hv

theorem sortKeyDesc_pairwise {α β : Type} [LinearOrder β] (key : α → β) (l : List α) :
    (sortKeyDesc key l).Pairwise (fun u v => key v ≤ key u) := by
  induction l with
  | nil => simp [sortKeyDesc]
  | cons x xs ih => exact insertKeyDesc_pairwise x ih

theorem insertKeyDesc_before_equal {α β : Type} [LinearOrder β] {key : α → β}
    {a b : α} (hk : key b ≤ key a) {l : List α} (hb : b ∈ l) :
    List.Sublist [a, b] (insertKeyDesc key a l) := by
  induction l with
  | nil => exact absurd hb (List.not_mem_nil b)
  | cons y ys ih =>
    unfold insertKeyDesc
    split_ifs with hc
    · exact (List.singleton_sublist.mpr hb).cons₂ a
    · rcases List.mem_cons.mp hb with rfl | hb2
      · exact absurd hk hc
      · exact (ih hb2).cons y

theorem sortKeyDesc_stable {α β : Type} [LinearOrder β] (key : α → β) {a b : α}
    (hk : key a = key b) :
    ∀ l : List α, List.Sublist [a, b] l → List.Sublist [a, b] (sortKeyDesc key l) := by
  intro l
  induction l with
  | nil => intro h; cases h
  | cons x xs ih =>
    intro h
    cases h with
    | cons _ h2 =>
      exact (ih h2).trans (sublist_insertKeyDesc key x (sortKeyDesc key xs))
    | cons₂ _ h2 =>
      have hb : b ∈ sortKeyDesc key xs :=
        mem_sortKeyDesc.mpr (List.singleton_sublist.mp h2)
      exact insertKeyDesc_before_equal (le_of_eq hk.symm) hb

theorem pair_sublist_of_mem {α : Type} {a b : α} {l : List α}
    (ha : a ∈ l) (hb : b ∈ l) (hne : a ≠ b) :
    List.Sublist [a, b] l ∨ List.Sublist [b, a] l := by
  induction l with
  | nil => exact absurd ha (List.not_mem_nil a)
  | cons x xs ih =>
    rcases List.mem_cons.mp ha with rfl | ha2
    · have hb2 : b ∈ xs := by
        rcases List.mem_cons.mp hb with h | h
        · exact absurd h.symm hne
        · exact h
      exact Or.inl ((List.singleton_sublist.mpr hb2).cons₂ a)
    · rcases List.mem_cons.mp hb with rfl | hb2
      · exact Or.inr ((List.singleton_sublist.mpr ha2).cons₂ b)
      · rcases ih ha2 hb2 with h | h
        · exact Or.inl (h.cons x)
        · exact Or.inr (h.cons x)

theorem sortKeyDesc_strict_before {α β : Type} [LinearOrder β] (key : α → β)
    {a b : α} (hk : key b < key a) {l : List α} (ha : a ∈ l) (hb : b ∈ l) :
    List.Sublist [a, b] (sortKeyDesc key l) := by
  have hne : a ≠ b := fun he => absurd hk (by rw [he]; exact lt_irrefl _)
  have ha2 : a ∈ sortKeyDesc key l := mem_sortKeyDesc.mpr ha
  have hb2 : b ∈ sortKeyDesc key l := mem_sortKeyDesc.mpr hb
  rcases pair_sublist_of_mem ha2 hb2 hne with h | h
  · exact h
  · have hp := (sortKeyDesc_pairwise key l).sublist h
    rcases List.pairwise_cons.mp hp with ⟨hrel, -⟩
    exact absurd (hrel a (List.mem_singleton.mpr rfl)) (not_le_of_lt hk)

theorem pair_sublist_flatMap {α γ : Type} {x y : α} {f : α → List γ} {a b : γ}
    (ha : a ∈ f x) (hb : b ∈ f y) :
    ∀ {l : List α}, List.Sublist [x, y] l → List.Sublist [a, b] (l.flatMap f) := by
  intro l
  induction l with
  | nil => intro h; cases h
  | cons z zs ih =>
    intro h
    cases h with
    | cons _ h2 =>
      refine (ih h2).trans ?_
      rw [List.flatMap_cons]
      exact List.sublist_append_right _ _
    | cons₂ _ h2 =>
      have hb2 : b ∈ zs.flatMap f :=
        List.mem_flatMap.mpr ⟨y, List.singleton_sublist.mp h2, hb⟩
      rw [List.flatMap_cons]
      exact List.Sublist.append (List.singleton_sublist.mpr ha)
        (List.singleton_sublist.mpr hb2)

/-! ### Pipeline characterization under a consistent cache -/

/-- The embeddings a chunk list receives from a deterministic embedder,
dropping falsy ones. -/
def pureEmbs (encode : List Char → Option (List ℚ)) (chunks : List (List Char)) :
    List (List ℚ) :=
  chunks.filterMap (fun ch => (encode ch).bind (fun v => if v = [] then none else some v))

theorem embedChunks_ok_eq {encode : List Char → Option (List ℚ)} {maxSize : ℕ} :
    ∀ {chunks : List (List Char)} {c c' : EmbCache} {vs : List (List ℚ)},
      CacheConsistent encode c →
      embedChunks (some encode) maxSize chunks c = .ok (vs, c') →
      vs = pureEmbs encode chunks ∧ CacheConsistent encode c' := by
  intro chunks
  induction chunks with
  | nil =>
    intro c c' vs hcons h
    unfold embedChunks at h
    simp only [Except.ok.injEq, Prod.mk.injEq] at h
    exact ⟨h.1.symm ▸ rfl, h.2 ▸ hcons⟩
  | cons ch rest ih =>
    intro c c' vs hcons h
    unfold embedChunks at h
    rcases hc1 : create_embeddings (some encode) maxSize ch c with e | ⟨v, c₁⟩
    · rw [hc1] at h
      exact absurd h (by simp)
    · rw [hc1] at h
      dsimp only at h
      obtain ⟨henc, hcons₁⟩ := create_embeddings_ok_consistent hcons hc1
      rcases hr : embedChunks (some encode) maxSize rest c₁ with e | ⟨vs₁, c₂⟩
      · rw [hr] at h
        exact absurd h (by simp)
      · rw [hr] at h
        dsimp only at h
        simp only [Except.ok.injEq, Prod.mk.injEq] at h
        obtain ⟨hvs, hcons₂⟩ := ih hcons₁ hr
        refine ⟨?_, h.2 ▸ hcons₂⟩
        rw [← h.1, hvs]
        unfold pureEmbs
        rw [List.filterMap_cons, henc]
        by_cases hv : v = []
        · simp [hv]
        · simp [hv]

theorem process_document_ok_eq {encode : List Char → Option (List ℚ)} {maxSize : ℕ}
    {doc : Document} {c c' : EmbCache} {chunks : List (List Char)}
    {embs : List (List ℚ)}
    (hcons : CacheConsistent encode c)
    (h : process_document (some encode) maxSize doc c = .ok ((chunks, embs), c')) :
    chunks = extract_chunks doc.content 500 100
    ∧ embs = pureEmbs encode (extract_chunks doc.content 500 100)
    ∧ CacheConsistent encode c' := by
  unfold process_document at h
  dsimp only at h
  rcases he : embedChunks (some encode) maxSize (extract_chunks doc.content 500 100) c
    with e | ⟨vs, c₁⟩
  · rw [he] at h
    exact absurd h (by simp)
  · rw [he] at h
    dsimp only at h
    simp only [Except.ok.injEq, Prod.mk.injEq] at h
    obtain ⟨hvs, hcons₁⟩ := embedChunks_ok_eq hcons he
    obtain ⟨⟨hch, hem⟩, hc'⟩ := h
    exact ⟨hch.symm, hem.symm.trans hvs, hc' ▸ hcons₁⟩

theorem processDocs_ok_eq {encode : List Char → Option (List ℚ)} {cfg : RAGConfig}
    {maxSize : ℕ} {now : Date} {qe : List ℚ} {query : List Char} :
    ∀ {docs : List Document} {c c' : EmbCache} {res : List ResultEntry},
      CacheConsistent encode c →
      processDocs encode cfg maxSize now qe query docs c = .ok (res, c') →
      res = docs.flatMap (entriesForDoc encode cfg now qe query)
        ∧ CacheConsistent encode c' := by
  intro docs
  induction docs with
  | nil =>
    intro c c' res hcons h
    unfold processDocs at h
    simp only [Except.ok.injEq, Prod.mk.injEq] at h
    exact ⟨h.1.symm ▸ rfl, h.2 ▸ hcons⟩
  | cons doc rest ih =>
    intro c c' res hcons h
    unfold processDocs at h
    rcases hp : process_document (some encode) maxSize doc c with e | ⟨⟨chunks, embs⟩, c₁⟩
    · rw [hp] at h
      exact absurd h (by simp)
    · rw [hp] at h
      dsimp only at h
      obtain ⟨hch, hem, hcons₁⟩ := process_document_ok_eq hcons hp
      rcases hr : processDocs encode cfg maxSize now qe query rest c₁ with e | ⟨others, c₂⟩
      · rw [hr] at h
        exact absurd h (by simp)
      · rw [hr] at h
        dsimp only at h
        simp only [Except.ok.injEq, Prod.mk.injEq] at h
        obtain ⟨hothers, hcons₂⟩ := ih hcons₁ hr
        refine ⟨?_, h.2 ▸ hcons₂⟩
        rw [← h.1, hothers, List.flatMap_cons]
        congr 1
        rw [hch, hem]
        rfl

/-- Inversion of a successful `find_relevant_chunks`: with a consistent
cache and a usable query embedding, the result is the top-k truncation of
the stably score-sorted entries of all documents in upload-recency order. -/
theorem find_relevant_chunks_ok_eq {encode : List Char → Option (List ℚ)}
    {cfg : RAGConfig} {maxSize : ℕ} {docs : List Document} {query : List Char}
    {k : ℤ} {now : Date} {cache : EmbCache} {res : List ResultEntry}
    {c₂ : EmbCache} {qe : List ℚ}
    (hcons : CacheConsistent encode cache)
    (hqe : encode query = some qe) (hqne : qe ≠ [])
    (hfind : find_relevant_chunks (some encode) cfg maxSize docs query k now cache
      = .ok (res, c₂)) :
    res = (rankedResults encode cfg now qe query docs).take k.toNat := by
  unfold find_relevant_chunks at hfind
  dsimp only at hfind
  by_cases hq : query.all (·.isWhitespace) = true
  · rw [if_pos hq] at hfind
    exact absurd hfind (by simp)
  · rw [if_neg hq] at hfind
    by_cases hk : k ≤ 0 ∨ 50 < k
    · rw [if_pos hk] at hfind
      exact absurd hfind (by simp)
    · rw [if_neg hk] at hfind
      rcases hc : create_embeddings (some encode) maxSize query cache with e | ⟨qe', c₁⟩
      · rw [hc] at hfind
        exact absurd hfind (by simp)
      · rw [hc] at hfind
        dsimp only at hfind
        obtain ⟨henc, hcons₁⟩ := create_embeddings_ok_consistent hcons hc
        have hqe' : qe' = qe := by
          rw [hqe] at henc
          exact (Option.some.injEq _ _ ▸ henc).symm
        subst hqe'
        rw [if_neg hqne] at hfind
        rcases hp : processDocs encode cfg maxSize now qe' query (sortByUploadedDesc docs) c₁
          with e | ⟨entries, c₃⟩
        · rw [hp] at hfind
          exact absurd hfind (by simp)
        · rw [hp] at hfind
          dsimp only at hfind
          simp only [Except.ok.injEq, Prod.mk.injEq] at hfind
          obtain ⟨hentries, -⟩ := processDocs_ok_eq hcons₁ hp
          rw [← hfind.1, hentries]
          rfl

/-! ### C3: batch isolation fails for embedding errors -/

/-- An embedder that fails (raises) exactly on one document's text. -/
def encFail : List Char → Option (List ℚ) :=
  fun t => if t = "failing content".toList then none else some [1]

/-- The newer document, whose single chunk makes the embedder raise. -/
def docFailing : Document :=
  ⟨11, "a.pdf".toList, "cv".toList, "failing content".toList, ⟨2024, 1, 10⟩, 1⟩

/-- The older document, which embeds fine. -/
def docHealthy : Document :=
  ⟨12, "b.pdf".toList, "cv".toList, "healthy content".toList, ⟨2024, 1, 5⟩, 1⟩

/-- Counterexample to C3 as stated: with two stored documents, a single
document's embedding failure aborts the whole retrieval with an
`EmbeddingError` — the healthy document is not scored and no ranking is
returned — although the same healthy document alone yields a nonempty
ranking. -/
theorem find_relevant_chunks_abort_counterexample :
    find_relevant_chunks (some encFail) defaultConfig 1000 [docHealthy, docFailing]
        "hello".toList 5 ⟨2024, 1, 20⟩ []
      = .error (.embeddingError "Failed to create embeddings".toList)
    ∧ ∃ r c', find_relevant_chunks (some encFail) defaultConfig 1000 [docHealthy]
        "hello".toList 5 ⟨2024, 1, 20⟩ [] = .ok (r, c') ∧ r.length = 1 :=
  ⟨rfl, ⟨_, _, rfl, rfl⟩⟩

/-- C3 (amended). A failure inside the per-chunk relevance combination is
degraded rather than propagated (its sub-computations are total here), but
an embedding failure for any single document aborts the entire retrieval:
once the query stage has succeeded, an error from the document loop is
returned as the overall result, with no partial ranking. Conversely, when
the loop succeeds, every stored document's entries appear in the ranking
(the result is the top-k of the stably score-sorted entries of all
documents). -/
theorem find_relevant_chunks_abort_amended :
    (∀ (encode : List Char → Option (List ℚ)) (cfg : RAGConfig) (maxSize : ℕ)
        (docs : List Document) (query : List Char) (k : ℤ) (now : Date)
        (cache : EmbCache) (e : PyError) (qe : List ℚ) (c₁ : EmbCache),
        ¬ query.all (·.isWhitespace) = true → ¬ (k ≤ 0 ∨ 50 < k) →
        create_embeddings (some encode) maxSize query cache = .ok (qe, c₁) → qe ≠ [] →
        processDocs encode cfg maxSize now qe query (sortByUploadedDesc docs) c₁
          = .error e →
        find_relevant_chunks (some encode) cfg maxSize docs query k now cache = .error e)
    ∧ (∀ (encode : List Char → Option (List ℚ)) (cfg : RAGConfig) (maxSize : ℕ)
        (docs : List Document) (query : List Char) (k : ℤ) (now : Date)
        (cache : EmbCache) (res : List ResultEntry) (c₂ : EmbCache) (qe : List ℚ),
        CacheConsistent encode cache → encode query = some qe → qe ≠ [] →
        find_relevant_chunks (some encode) cfg maxSize docs query k now cache
          = .ok (res, c₂) →
        res = (rankedResults encode cfg now qe query docs).take k.toNat) := by
  constructor
  · intro encode cfg maxSize docs query k now cache e qe c₁ hq hk hc hqne hp
    unfold find_relevant_chunks
    dsimp only
    rw [if_neg hq, if_neg hk, hc]
    dsimp only
    rw [if_neg hqne, hp]
  · intro encode cfg maxSize docs query k now cache res c₂ qe hcons hqe hqne hfind
    exact find_relevant_chunks_ok_eq hcons hqe hqne hfind

/-- Witness for C3 (amended) at the concrete failing scenario. -/
theorem find_relevant_chunks_abort_amended_witness :
    find_relevant_chunks (some encFail) defaultConfig 1000 [docHealthy, docFailing]
        "hello".toList 5 ⟨2024, 1, 20⟩ []
      = .error (.embeddingError "Failed to create embeddings".toList) :=
  find_relevant_chunks_abort_amended.1 encFail defaultConfig 1000
    [docHealthy, docFailing] "hello".toList 5 ⟨2024, 1, 20⟩ []
    (.embeddingError "Failed to create embeddings".toList) [1]
    [("hello".toList, [1])] (by decide) (by decide) rfl (by simp) rfl

/-! ### C9: deterministic tie-breaking by upload recency -/

/-- C9. When retrieval succeeds (consistent cache, usable query embedding),
the returned list is the `top_k` truncation of the ranked results, and in
that ranking an entry of a more recently uploaded document appears before
any equal-scoring entry of a less recently uploaded document: the documents
are fetched in upload-recency order and Python's stable sort preserves the
relative order of equal composite scores. Determinism of the output is
definitional in the pure embedding. -/
theorem find_relevant_chunks_tie_break (encode : List Char → Option (List ℚ))
    (cfg : RAGConfig) (maxSize : ℕ) (docs : List Document) (query : List Char)
    (k : ℤ) (now : Date) (cache : EmbCache) (res : List ResultEntry)
    (c₂ : EmbCache) (qe : List ℚ) (A B : Document) (a b : ResultEntry)
    (hcons : CacheConsistent encode cache)
    (hqe : encode query = some qe) (hqne : qe ≠ [])
    (hfind : find_relevant_chunks (some encode) cfg maxSize docs query k now cache
      = .ok (res, c₂))
    (hA : A ∈ docs) (hB : B ∈ docs)
    (hup : B.uploaded_at.toOrdinal < A.uploaded_at.toOrdinal)
    (ha : a ∈ entriesForDoc encode cfg now qe query A)
    (hb : b ∈ entriesForDoc encode cfg now qe query B)
    (hscore : a.relevance_score = b.relevance_score) :
    res = (rankedResults encode cfg now qe query docs).take k.toNat
    ∧ List.Sublist [a, b] (rankedResults encode cfg now qe query docs) := by
  refine ⟨find_relevant_chunks_ok_eq hcons hqe hqne hfind, ?_⟩
  have hAB : List.Sublist [A, B] (sortByUploadedDesc docs) := by
    unfold sortByUploadedDesc
    exact sortKeyDesc_strict_before (fun d => d.uploaded_at.toOrdinal) hup hA hB
  have hab := pair_sublist_flatMap ha hb hAB
  unfold rankedResults sortByScore
  exact sortKeyDesc_stable (fun e => e.relevance_score) hscore _ hab

/-- The newer of two otherwise-identical CV snapshots. -/
def tieDocA : Document :=
  ⟨21, "2024-01-10_CV_Acme.pdf".toList, "cv".toList, "data scientist".toList,
    ⟨2024, 1, 12⟩, 1⟩

/-- The older twin of `tieDocA` (same filename, type and content, so the
same composite score; only id and upload timestamp differ). -/
def tieDocB : Document :=
  ⟨22, "2024-01-10_CV_Acme.pdf".toList, "cv".toList, "data scientist".toList,
    ⟨2024, 1, 5⟩, 1⟩

/-- Witness for C9: two equal-scoring twin documents; the newer one's entry
precedes the older one's in the ranking. -/
theorem find_relevant_chunks_tie_break_witness :
    ∃ (res : List ResultEntry) (c₂ : EmbCache),
      find_relevant_chunks (some encOne) defaultConfig 1000 [tieDocB, tieDocA]
          "role".toList 5 ⟨2024, 1, 20⟩ [] = .ok (res, c₂)
      ∧ res = (rankedResults encOne defaultConfig ⟨2024, 1, 20⟩ [1] "role".toList
          [tieDocB, tieDocA]).take (5 : ℤ).toNat
      ∧ List.Sublist
          [mkEntry defaultConfig ⟨2024, 1, 20⟩ [1] "role".toList tieDocA 0
            "data scientist".toList [1],
           mkEntry defaultConfig ⟨2024, 1, 20⟩ [1] "role".toList tieDocB 0
            "data scientist".toList [1]]
          (rankedResults encOne defaultConfig ⟨2024, 1, 20⟩ [1] "role".toList
            [tieDocB, tieDocA]) := by
  refine ⟨_, _, rfl, ?_⟩
  exact find_relevant_chunks_tie_break encOne defaultConfig 1000 [tieDocB, tieDocA]
    "role".toList 5 ⟨2024, 1, 20⟩ [] _ _ [1] tieDocA tieDocB _ _
    (fun p hp => absurd hp (List.not_mem_nil p)) rfl (by simp) rfl
    (by simp) (by simp) (by decide)
    (List.mem_singleton.mpr rfl) (List.mem_singleton.mpr rfl) rfl
